import Mathlib

/-!
# Verification of the HomeBudget sync codec and batch orchestrator

Shallow embedding of the core of the `homebudget` repository:

* the Currency/Rounding Normalizer (`client.py`: `_normalize_forex_inputs`,
  `_resolve_batch_forex_add`, `_get_currency_decimal_places`;
  `repository.py`: `_round_currency_amount`, `_resolve_decimal_places`),
* the Sync Payload Codec (`sync.py`: `SyncUpdateManager._encode_payload`;
  `tests/utils/sync_payload.py`: `decode_sync_payload`), with the external
  zlib library abstracted as a compression/decompression pair satisfying its
  documented inversion contract,
* the Batch/Transaction Orchestrator (`client.py`: `_run_transaction`,
  `_execute_update_transaction`, `batch`, `_execute_batch_create_transaction`;
  `sync.py`: `create_sync_record`, `create_updates_for_changes`),
* DTO currency validation (`models.py`: `BaseTransactionDTO._validate_currency`).

Python `Decimal` amounts are modelled as `Rat` (exact decimal arithmetic for
the comparisons and products these code paths perform); `Decimal.quantize`
with the default `ROUND_HALF_EVEN` context is modelled by `roundHalfEven`.
-/

namespace HomeBudget

/-! ## Currency/Rounding Normalizer -/

/-- Python truthiness test `not currency.strip()`: the string is empty or
consists only of whitespace. -/
def strBlank (s : String) : Bool := s.data.all Char.isWhitespace

/-- `HomeBudgetClient._get_forex_rate`: returns `1.0` when the forex manager
is disabled, else `rate(from_currency, base_currency)` from the injected
rate provider. -/
def getForexRate (forexEnabled : Bool) (rateProvider : String → String → ℚ)
    (baseCurrency : String) (fromCurrency : String) : ℚ :=
  if forexEnabled then rateProvider fromCurrency baseCurrency else 1

/-- `HomeBudgetClient._normalize_forex_inputs` (client.py), translated
block by block; the imperative reassignments of `amount`, `currency_amount`
and `exchange_rate` become rebindings.  Errors carry the source's message. -/
def normalizeForexInputs (getRate : String → ℚ) (amount : Option ℚ)
    (currency : Option String) (currencyAmount : Option ℚ)
    (exchangeRate : Option ℚ) (label : String) (allowEmpty : Bool) :
    Except String (Option ℚ × Option String × Option ℚ) := do
  -- block 1: amount and currency_amount both supplied
  let (amount, currencyAmount) ←
    match amount, currencyAmount with
    | some a, some ca =>
        if exchangeRate.isSome then
          Except.error (label ++ ": provide amount or currency_amount with exchange_rate, not both")
        else if a ≠ ca then
          Except.error (label ++ ": provide amount or currency_amount with exchange_rate, not both")
        else
          Except.ok (some a, some a)
    | a, ca => Except.ok (a, ca)
  -- block 2: currency_amount supplied
  let amount ←
    match currencyAmount with
    | some ca =>
        match currency with
        | none => Except.error (label ++ ": currency is required with currency_amount")
        | some c =>
            if strBlank c then
              Except.error (label ++ ": currency is required with currency_amount")
            else
              let rate := match exchangeRate with
                | some r => r
                | none => getRate c
              Except.ok (some (ca * rate))
    | none => Except.ok amount
  -- block 3: neither supplied
  if amount.isNone && currencyAmount.isNone && !allowEmpty then
    Except.error (label ++ ": amount or currency_amount is required")
  else
    -- block 4: default currency_amount to amount
    let currencyAmount := if amount.isSome && currencyAmount.isNone then amount else currencyAmount
    -- block 5: currency fields without any amount
    let currencyTruthy : Bool := match currency with
      | none => false
      | some c => c ≠ ""
    if amount.isNone && currencyAmount.isNone && (currencyTruthy || exchangeRate.isSome) then
      Except.error (label ++ ": amount or currency_amount is required when setting currency fields")
    else
      Except.ok (amount, currency, currencyAmount)

/-- `HomeBudgetClient._resolve_batch_forex_add` (client.py): the batch-add
variant never consults the rate provider; an explicit `exchange_rate` is
required alongside `currency_amount`. -/
def resolveBatchForexAdd (amount : Option ℚ) (currency : Option String)
    (currencyAmount : Option ℚ) (exchangeRate : Option ℚ) (label : String) :
    Except String (Option ℚ × Option String × Option ℚ) := do
  if amount.isSome && currencyAmount.isSome then
    Except.error (label ++ ": provide amount or currency_amount with exchange_rate, not both")
  else
    let amount ←
      match currencyAmount with
      | some ca =>
          if exchangeRate.isNone then
            Except.error (label ++ ": exchange_rate is required with currency_amount")
          else
            match currency with
            | none => Except.error (label ++ ": currency is required with currency_amount")
            | some c =>
                if strBlank c then
                  Except.error (label ++ ": currency is required with currency_amount")
                else
                  Except.ok (some (ca * exchangeRate.get!))
      | none => Except.ok amount
    if amount.isNone && currencyAmount.isNone then
      Except.error (label ++ ": amount or currency_amount is required")
    else
      let currencyAmount := if amount.isSome && currencyAmount.isNone then amount else currencyAmount
      Except.ok (amount, currency, currencyAmount)

/-- `forex.py`: `REF_CURRENCY`. -/
def REF_CURRENCY : String := "USD"

/-- `client.py`: `HIGH_VALUE_RATE_THRESHOLD = Decimal("100")`. -/
def HIGH_VALUE_RATE_THRESHOLD : ℚ := 100

/-- `HomeBudgetClient._get_currency_decimal_places` (client.py): the rate
lookup `get_rate(REF_CURRENCY, currency)` is modelled as an optional result
(`none` = the `except` path).  Source: `2` without a forex manager or on a
lookup failure, `0` when `rate >= HIGH_VALUE_RATE_THRESHOLD`, else `2`. -/
def getCurrencyDecimalPlaces (forexEnabled : Bool)
    (getRate : String → String → Option ℚ) (currency : String) : Nat :=
  if ¬forexEnabled then 2
  else
    match getRate REF_CURRENCY currency with
    | none => 2
    | some rate => if rate ≥ HIGH_VALUE_RATE_THRESHOLD then 0 else 2

/-- The decimal-place rule in the spec's words, for comparison: `0` when the
currency's rate-to-reference *exceeds* the threshold, else `2`. -/
def specDecimalPlaces (rate : ℚ) : Nat :=
  if rate > HIGH_VALUE_RATE_THRESHOLD then 0 else 2

/-- Round half to even (banker's rounding), the default rounding of Python
`Decimal.quantize`. -/
def roundHalfEven (x : ℚ) : ℤ :=
  let f := x.floor
  if x - f < 1/2 then f
  else if x - f > 1/2 then f + 1
  else if f % 2 = 0 then f else f + 1

/-- `Repository._round_currency_amount` (repository.py): quantize to the
integer grid when `decimal_places == 0`, else to two decimal places. -/
def roundCurrencyAmount (amount : ℚ) (decimalPlaces : Nat) : ℚ :=
  if decimalPlaces = 0 then (roundHalfEven amount : ℚ)
  else (roundHalfEven (amount * 100) : ℚ) / 100

/-- `Repository._resolve_decimal_places` (repository.py). -/
def resolveDecimalPlaces (decimalPlaces : Option Nat) : Except String Nat :=
  match decimalPlaces with
  | none => Except.ok 2
  | some d =>
      if d = 0 ∨ d = 2 then Except.ok d
      else Except.error "decimal_places must be 0 or 2"

/-- The monetary part of `Repository.update_expense` (repository.py): the
stored `amount` and `currencyAmount` columns after an update, as functions of
the supplied fields and decimal-place metadata.  When `amount` is supplied and
`currency_amount` is not, `currencyAmount` is mirrored from the rounded
amount. -/
def updateStoredAmounts (amount : Option ℚ) (currencyAmount : Option ℚ)
    (amountDecimalPlaces : Option Nat) (currencyAmountDecimalPlaces : Option Nat) :
    Except String (Option ℚ × Option ℚ) := do
  let normalizedAmount ←
    match amount with
    | some a => do
        let places ← resolveDecimalPlaces amountDecimalPlaces
        Except.ok (some (roundCurrencyAmount a places))
    | none => Except.ok none
  let normalizedCurrencyAmount ←
    match currencyAmount with
    | some ca => do
        let places ← resolveDecimalPlaces
          (match currencyAmountDecimalPlaces with
            | some p => some p
            | none => amountDecimalPlaces)
        Except.ok (some (roundCurrencyAmount ca places))
    | none => Except.ok normalizedAmount
  Except.ok (normalizedAmount, normalizedCurrencyAmount)

/-- Whether an `Except` result is an error (a raised Python exception). -/
def isErr {ε α : Type} : Except ε α → Bool
  | Except.error _ => true
  | Except.ok _ => false

/-- `BaseTransactionDTO._validate_currency` (models.py), on the two currency
fields: accept when both are absent; reject a blank currency; reject a
currency without a `currency_amount`; otherwise accept. -/
def validateCurrencyDTO (currency : Option String) (currencyAmount : Option ℚ) :
    Except String Unit :=
  if currencyAmount.isNone && currency.isNone then Except.ok ()
  else
    match currency with
    | some c =>
        if strBlank c then Except.error "Currency must not be empty when provided"
        else if currencyAmount.isNone then
          Except.error "currency_amount is required when currency is set"
        else Except.ok ()
    | none => Except.ok ()

/-! ## Sync Payload Codec: JSON values

A `SyncPayload` is the ordered string-to-value map built by
`SyncUpdateManager._build_payload`; insertion order is the list order.  The
value forms are the ones the Payload Field Resolver emits: strings, integers,
non-integer number literals (the shortest-repr token of a Python float, kept
as its token text since `float(repr(f)) == f`), booleans, `None`, and the
single-element integer arrays of `key_array` fields. -/

inductive JVal where
  | str (s : String)
  | int (n : Int)
  | numLit (s : String)
  | bool (b : Bool)
  | null
  | arr (ns : List Int)
deriving DecidableEq

/-- The ordered field map produced by the Payload Field Resolver. -/
abbrev SyncPayload := List (String × JVal)

/-! ### Serialization, `json.dumps(payload, separators=(",", ":"))`
(compact, `ensure_ascii=True`, insertion order preserved). -/

/-- Lowercase hex digit, as CPython's json encoder emits in `\uXXXX`. -/
def hexDigitChar (n : Nat) : Char :=
  if n < 10 then Char.ofNat (48 + n) else Char.ofNat (87 + n)

/-- The four hex digits of a code unit below `0x10000`. -/
def hexQuad (n : Nat) : List Char :=
  [hexDigitChar (n / 4096 % 16), hexDigitChar (n / 256 % 16),
   hexDigitChar (n / 16 % 16), hexDigitChar (n % 16)]

/-- A `\uXXXX` escape for a code unit below `0x10000`. -/
def uescape4 (n : Nat) : List Char := '\\' :: 'u' :: hexQuad n

/-- CPython json string escaping with `ensure_ascii=True`: short escapes for
the two delimiters and the five control characters that have them, `\uXXXX`
for every other character outside printable ASCII (`0x20`–`0x7e`), surrogate
pairs for astral code points, and the character itself otherwise. -/
def escChar (c : Char) : List Char :=
  if c = '"' then ['\\', '"']
  else if c = '\\' then ['\\', '\\']
  else if c.toNat = 8 then ['\\', 'b']
  else if c.toNat = 9 then ['\\', 't']
  else if c.toNat = 10 then ['\\', 'n']
  else if c.toNat = 12 then ['\\', 'f']
  else if c.toNat = 13 then ['\\', 'r']
  else if c.toNat < 32 ∨ 127 ≤ c.toNat then
    if c.toNat < 65536 then uescape4 c.toNat
    else
      uescape4 (55296 + (c.toNat - 65536) / 1024) ++ uescape4 (56320 + (c.toNat - 65536) % 1024)
  else [c]

/-- Escape every character of a string body. -/
def escBody : List Char → List Char
  | [] => []
  | c :: cs => escChar c ++ escBody cs

/-- A serialized JSON string: quote, escaped body, quote. -/
def serStr (s : String) : List Char := '"' :: (escBody s.data ++ ['"'])

/-- Decimal digit character. -/
def digitChar (d : Nat) : Char := Char.ofNat (48 + d)

/-- Decimal digits of a natural number, least significant first; the fuel
argument bounds the recursion and any `fuel ≥ n` suffices. -/
def natDigitsAux : Nat → Nat → List Char
  | 0, _ => []
  | _ + 1, 0 => []
  | fuel + 1, n => digitChar (n % 10) :: natDigitsAux fuel (n / 10)

/-- Decimal rendering of a natural number, most significant digit first. -/
def serNat (n : Nat) : List Char :=
  if n = 0 then ['0'] else (natDigitsAux n n).reverse

/-- Decimal rendering of an integer. -/
def serInt (n : Int) : List Char :=
  if n < 0 then '-' :: serNat n.natAbs else serNat n.toNat

/-- Serialized integer array elements, comma-separated. -/
def serIntList : List Int → List Char
  | [] => []
  | [n] => serInt n
  | n :: rest => serInt n ++ ',' :: serIntList rest

/-- Serialized JSON value. -/
def serVal : JVal → List Char
  | JVal.str s => serStr s
  | JVal.int n => serInt n
  | JVal.numLit s => s.data
  | JVal.bool b => if b then "true".data else "false".data
  | JVal.null => "null".data
  | JVal.arr ns => '[' :: (serIntList ns ++ [']'])

/-- Serialized object members: `"key":value` pairs joined by `,`
(the `separators=(",", ":")` compact form), in insertion order. -/
def serMembers : SyncPayload → List Char
  | [] => []
  | [(k, v)] => serStr k ++ ':' :: serVal v
  | (k, v) :: rest => serStr k ++ ':' :: serVal v ++ ',' :: serMembers rest

/-- The serialized payload object. -/
def serObject (p : SyncPayload) : List Char := '{' :: (serMembers p ++ ['}'])

/-! ### Parsing, `json.loads` restricted to the grammar the serializer
emits (compact object of string keys and flat values, no interstitial
whitespace; on that sublanguage it agrees with `json.loads`).  Lean `Char`
cannot carry lone surrogates, so unpaired `\uD800`–`\uDFFF` escapes are
rejected rather than preserved. -/

/-- Hex digit value (both cases, as `json.loads` accepts). -/
def hexDigitVal (c : Char) : Option Nat :=
  if 48 ≤ c.toNat ∧ c.toNat ≤ 57 then some (c.toNat - 48)
  else if 97 ≤ c.toNat ∧ c.toNat ≤ 102 then some (c.toNat - 87)
  else if 65 ≤ c.toNat ∧ c.toNat ≤ 70 then some (c.toNat - 55)
  else none

/-- Parse exactly four hex digits. -/
def parseHex4 : List Char → Option (Nat × List Char)
  | c1 :: c2 :: c3 :: c4 :: rest =>
    match hexDigitVal c1, hexDigitVal c2, hexDigitVal c3, hexDigitVal c4 with
    | some d1, some d2, some d3, some d4 =>
        some (((d1 * 16 + d2) * 16 + d3) * 16 + d4, rest)
    | _, _, _, _ => none
  | _ => none

/-- After a high surrogate `\uXXXX` escape, parse the mandatory low
surrogate escape and recombine the pair into a scalar value. -/
def parseLowSurrogate (n1 : Nat) (rest1 : List Char) : Option (Char × List Char) :=
  match rest1 with
  | a :: b :: rest2 =>
    if a = '\\' ∧ b = 'u' then
      match parseHex4 rest2 with
      | some (n2, rest3) =>
        if 56320 ≤ n2 ∧ n2 < 57344 then
          some (Char.ofNat (65536 + (n1 - 55296) * 1024 + (n2 - 56320)), rest3)
        else none
      | none => none
    else none
  | _ => none

/-- Parse the tail of a `\uXXXX` escape (after the `u`). -/
def parseUEsc (rest : List Char) : Option (Char × List Char) :=
  match parseHex4 rest with
  | none => none
  | some (n1, rest1) =>
    if 55296 ≤ n1 ∧ n1 < 56320 then parseLowSurrogate n1 rest1
    else if 56320 ≤ n1 ∧ n1 < 57344 then none
    else some (Char.ofNat n1, rest1)

/-- Parse one escape sequence (after the backslash), recombining surrogate
pairs into a scalar value. -/
def parseEsc : List Char → Option (Char × List Char)
  | [] => none
  | c :: rest =>
    if c = '"' then some ('"', rest)
    else if c = '\\' then some ('\\', rest)
    else if c = '/' then some ('/', rest)
    else if c = 'b' then some (Char.ofNat 8, rest)
    else if c = 'f' then some (Char.ofNat 12, rest)
    else if c = 'n' then some (Char.ofNat 10, rest)
    else if c = 'r' then some (Char.ofNat 13, rest)
    else if c = 't' then some (Char.ofNat 9, rest)
    else if c = 'u' then parseUEsc rest
    else none

/-- Parse a JSON string body up to the closing quote.  The fuel argument
bounds the recursion; any `fuel ≥ length of the body + 1` suffices. -/
def parseJString : Nat → List Char → Option (List Char × List Char)
  | 0, _ => none
  | _ + 1, [] => none
  | fuel + 1, c :: rest =>
    if c = '"' then some ([], rest)
    else if c = '\\' then
      match parseEsc rest with
      | none => none
      | some (d, rest1) =>
        match parseJString fuel rest1 with
        | none => none
        | some (s, r) => some (d :: s, r)
    else
      match parseJString fuel rest with
      | none => none
      | some (s, r) => some (c :: s, r)

/-- Decimal digit test. -/
def isDigitCh (c : Char) : Bool := 48 ≤ c.toNat && c.toNat ≤ 57

/-- Decimal digit value. -/
def digitVal (c : Char) : Nat := c.toNat - 48

/-- Split off the longest leading run of decimal digits. -/
def takeDigits : List Char → (List Char × List Char)
  | [] => ([], [])
  | c :: rest =>
    if isDigitCh c then
      let (ds, r) := takeDigits rest
      (c :: ds, r)
    else ([], c :: rest)

/-- Numeric value of a digit run, most significant first. -/
def natFromDigits (ds : List Char) : Nat := ds.foldl (fun a c => a * 10 + digitVal c) 0

/-- Integer value of a possibly-signed digit run. -/
def intOfTok (negTok ds : List Char) : Int :=
  if negTok.isEmpty then (natFromDigits ds : Int) else -(natFromDigits ds : Int)

/-- Parse an exponent part whose marker character `e` has been consumed.
Returns the exponent characters (marker included) and the remainder. -/
def parseExp (e : Char) (t : List Char) : Option (List Char × List Char) :=
  let (sgn, t1) : List Char × List Char :=
    match t with
    | c :: r => if c = '+' ∨ c = '-' then ([c], r) else ([], t)
    | [] => ([], t)
  let (xs, t2) := takeDigits t1
  if xs.isEmpty then none else some (e :: (sgn ++ xs), t2)

/-- Continue a number token after its integer part: an optional fraction and
an optional exponent.  Tokens containing a fraction or exponent are kept as
`numLit` (non-integer) tokens; bare digit runs become `int`. -/
def parseNumTail (negTok ds cs2 : List Char) : Option (JVal × List Char) :=
  match cs2 with
  | [] => some (JVal.int (intOfTok negTok ds), [])
  | c :: t =>
    if c = '.' then
      let (fs, cs3) := takeDigits t
      if fs.isEmpty then none
      else
        match cs3 with
        | [] => some (JVal.numLit (String.mk (negTok ++ ds ++ '.' :: fs)), [])
        | c2 :: t2 =>
          if c2 = 'e' ∨ c2 = 'E' then
            match parseExp c2 t2 with
            | none => none
            | some (es, cs4) =>
                some (JVal.numLit (String.mk (negTok ++ ds ++ '.' :: (fs ++ es))), cs4)
          else some (JVal.numLit (String.mk (negTok ++ ds ++ '.' :: fs)), c2 :: t2)
    else if c = 'e' ∨ c = 'E' then
      match parseExp c t with
      | none => none
      | some (es, cs4) => some (JVal.numLit (String.mk (negTok ++ ds ++ es)), cs4)
    else some (JVal.int (intOfTok negTok ds), c :: t)

/-- Parse a number token (`json.loads`'s `NUMBER_RE` shape). -/
def parseNumberTok (cs : List Char) : Option (JVal × List Char) :=
  let (negTok, cs1) : List Char × List Char :=
    match cs with
    | c :: t => if c = '-' then (['-'], t) else ([], cs)
    | [] => ([], cs)
  let (ds, cs2) := takeDigits cs1
  if ds.isEmpty then none else parseNumTail negTok ds cs2

/-- Parse the comma-separated integer elements of an array, up to `]`.
Payload arrays only ever hold record keys, so elements are integers. -/
def parseIntElems : Nat → List Char → Option (List Int × List Char)
  | 0, _ => none
  | fuel + 1, cs =>
    match parseNumberTok cs with
    | some (JVal.int n, rest) =>
      (match rest with
       | c :: t =>
         if c = ']' then some ([n], t)
         else if c = ',' then
           match parseIntElems fuel t with
           | none => none
           | some (ns, r) => some (n :: ns, r)
         else none
       | [] => none)
    | _ => none

/-- Parse an array's contents after the opening `[`. -/
def parseIntArray (fuel : Nat) (cs : List Char) : Option (List Int × List Char) :=
  match cs with
  | [] => none
  | c :: t => if c = ']' then some ([], t) else parseIntElems fuel (c :: t)

/-- Parse one JSON value of the payload sublanguage. -/
def parseJVal (cs : List Char) : Option (JVal × List Char) :=
  match cs with
  | [] => none
  | c :: rest =>
    if c = '"' then
      match parseJString (rest.length + 1) rest with
      | none => none
      | some (s, r) => some (JVal.str (String.mk s), r)
    else if c = '[' then
      match parseIntArray (rest.length + 1) rest with
      | none => none
      | some (ns, r) => some (JVal.arr ns, r)
    else if c = 't' then
      match rest with
      | 'r' :: 'u' :: 'e' :: r => some (JVal.bool true, r)
      | _ => none
    else if c = 'f' then
      match rest with
      | 'a' :: 'l' :: 's' :: 'e' :: r => some (JVal.bool false, r)
      | _ => none
    else if c = 'n' then
      match rest with
      | 'u' :: 'l' :: 'l' :: r => some (JVal.null, r)
      | _ => none
    else parseNumberTok cs

/-- Parse `"key":value` members until the closing `}`.  Any
`fuel ≥ member count + 1` suffices. -/
def parseMembers : Nat → List Char → Option (SyncPayload × List Char)
  | 0, _ => none
  | fuel + 1, cs =>
    match cs with
    | [] => none
    | c :: rest =>
      if c = '"' then
        match parseJString (rest.length + 1) rest with
        | none => none
        | some (k, r1) =>
          match r1 with
          | [] => none
          | c2 :: r2 =>
            if c2 = ':' then
              match parseJVal r2 with
              | none => none
              | some (v, r3) =>
                match r3 with
                | [] => none
                | c3 :: r4 =>
                  if c3 = ',' then
                    match parseMembers fuel r4 with
                    | none => none
                    | some (ms, r5) => some ((String.mk k, v) :: ms, r5)
                  else if c3 = '}' then some ([(String.mk k, v)], r4)
                  else none
            else none
      else none

/-- Parse a payload object. -/
def parseJObject (cs : List Char) : Option (SyncPayload × List Char) :=
  match cs with
  | [] => none
  | c :: rest =>
    if c = '{' then
      match rest with
      | [] => none
      | c2 :: r2 =>
        if c2 = '}' then some ([], r2)
        else parseMembers (rest.length + 1) rest
    else none

/-- Top-level parse: the whole input must be one object (as `json.loads`
rejects trailing data). -/
def parseSyncJson (cs : List Char) : Option SyncPayload :=
  match parseJObject cs with
  | some (p, []) => some p
  | _ => none

/-! ### Bytes: UTF-8 and base64

Bytes are `Nat` values below 256. -/

/-- UTF-8 encoding of one scalar value (`str.encode("utf-8")`). -/
def utf8EncodeChar (c : Char) : List Nat :=
  let n := c.toNat
  if n < 128 then [n]
  else if n < 2048 then [192 + n / 64, 128 + n % 64]
  else if n < 65536 then [224 + n / 4096, 128 + n / 64 % 64, 128 + n % 64]
  else [240 + n / 262144, 128 + n / 4096 % 64, 128 + n / 64 % 64, 128 + n % 64]

/-- UTF-8 encoding of a string. -/
def utf8Encode : List Char → List Nat
  | [] => []
  | c :: cs => utf8EncodeChar c ++ utf8Encode cs

/-- Strict UTF-8 decoding (`bytes.decode("utf-8")`): rejects truncated
sequences, bad continuation bytes, overlong forms, surrogates and
out-of-range code points.  Any `fuel ≥ length` suffices. -/
def utf8DecodeTwo (dec : List Nat → Option (List Char)) (b : Nat) :
    List Nat → Option (List Char)
  | b2 :: r2 =>
    if 128 ≤ b2 ∧ b2 < 192 then
      (dec r2).map (fun s => Char.ofNat ((b - 192) * 64 + (b2 - 128)) :: s)
    else none
  | [] => none

def utf8DecodeThree (dec : List Nat → Option (List Char)) (b : Nat) :
    List Nat → Option (List Char)
  | b2 :: b3 :: r3 =>
    if 128 ≤ b2 ∧ b2 < 192 ∧ 128 ≤ b3 ∧ b3 < 192 then
      let n := (b - 224) * 4096 + (b2 - 128) * 64 + (b3 - 128)
      if 2048 ≤ n ∧ ¬(55296 ≤ n ∧ n < 57344) then
        (dec r3).map (fun s => Char.ofNat n :: s)
      else none
    else none
  | _ => none

def utf8DecodeFour (dec : List Nat → Option (List Char)) (b : Nat) :
    List Nat → Option (List Char)
  | b2 :: b3 :: b4 :: r4 =>
    if 128 ≤ b2 ∧ b2 < 192 ∧ 128 ≤ b3 ∧ b3 < 192 ∧ 128 ≤ b4 ∧ b4 < 192 then
      let n := (b - 240) * 262144 + (b2 - 128) * 4096 + (b3 - 128) * 64 + (b4 - 128)
      if 65536 ≤ n ∧ n < 1114112 then
        (dec r4).map (fun s => Char.ofNat n :: s)
      else none
    else none
  | _ => none

def utf8DecodeAux : Nat → List Nat → Option (List Char)
  | _, [] => some []
  | 0, _ :: _ => none
  | fuel + 1, b :: rest =>
    if b < 128 then
      (utf8DecodeAux fuel rest).map (fun s => Char.ofNat b :: s)
    else if 194 ≤ b ∧ b < 224 then utf8DecodeTwo (utf8DecodeAux fuel) b rest
    else if 224 ≤ b ∧ b < 240 then utf8DecodeThree (utf8DecodeAux fuel) b rest
    else if 240 ≤ b ∧ b < 245 then utf8DecodeFour (utf8DecodeAux fuel) b rest
    else none

/-- Strict UTF-8 decoding of a byte string. -/
def utf8Decode (bs : List Nat) : Option (List Char) := utf8DecodeAux bs.length bs

/-- The standard base64 alphabet. -/
def b64Alphabet : List Char :=
  "ABCDEFGHIJKLMNOPQRSTUVWXYZabcdefghijklmnopqrstuvwxyz0123456789+/".data

/-- The character for a 6-bit group. -/
def b64Char (n : Nat) : Char := b64Alphabet.getD n '?'

/-- The 6-bit value of an alphabet character. -/
def b64Index (c : Char) : Option Nat := b64Alphabet.findIdx? (fun x => x = c)

/-- Standard base64 encoding (`base64.b64encode`): three bytes to four
characters, with `=` padding on a final partial group. -/
def b64EncodeChunks : List Nat → List Char
  | [] => []
  | [b1] => [b64Char (b1 / 4), b64Char (b1 % 4 * 16), '=', '=']
  | [b1, b2] => [b64Char (b1 / 4), b64Char (b1 % 4 * 16 + b2 / 16), b64Char (b2 % 16 * 4), '=']
  | b1 :: b2 :: b3 :: rest =>
      b64Char (b1 / 4) :: b64Char (b1 % 4 * 16 + b2 / 16) :: b64Char (b2 % 16 * 4 + b3 / 64)
        :: b64Char (b3 % 64) :: b64EncodeChunks rest

/-- Decode a final four-character group, honouring `=` padding. -/
def b64DecodeChunk (c1 c2 c3 c4 : Char) : Option (List Nat) :=
  match b64Index c1, b64Index c2 with
  | some d1, some d2 =>
    if c3 = '=' then
      if c4 = '=' then some [d1 * 4 + d2 / 16] else none
    else
      match b64Index c3 with
      | some d3 =>
        if c4 = '=' then some [d1 * 4 + d2 / 16, d2 % 16 * 16 + d3 / 4]
        else
          match b64Index c4 with
          | some d4 => some [d1 * 4 + d2 / 16, d2 % 16 * 16 + d3 / 4, d3 % 4 * 64 + d4]
          | none => none
      | none => none
  | _, _ => none

/-- Standard base64 decoding (`base64.b64decode`) of a padded input whose
length is a multiple of four; `=` may appear only in the final group. -/
def b64DecodeChunks : List Char → Option (List Nat)
  | [] => some []
  | c1 :: c2 :: c3 :: c4 :: rest =>
    if rest.isEmpty then b64DecodeChunk c1 c2 c3 c4
    else
      match b64Index c1, b64Index c2, b64Index c3, b64Index c4, b64DecodeChunks rest with
      | some d1, some d2, some d3, some d4, some bs =>
          some ((d1 * 4 + d2 / 16) :: (d2 % 16 * 16 + d3 / 4) :: (d3 % 4 * 64 + d4) :: bs)
      | _, _, _, _, _ => none
  | _ => none

/-- `base64.urlsafe_b64encode`'s character translation (`+/` to `-_`). -/
def toUrlsafe (c : Char) : Char := if c = '+' then '-' else if c = '/' then '_' else c

/-- The decoder's `replace("-", "+").replace("_", "/")`; single-character
replacements compose to a character map. -/
def fromUrlsafe (c : Char) : Char := if c = '-' then '+' else if c = '_' then '/' else c

/-- `encoded.rstrip("=")`. -/
def stripTrailingEq (cs : List Char) : List Char :=
  (cs.reverse.dropWhile (fun c => c = '=')).reverse

/-- `cleaned + "=" * (-len(cleaned) % 4)`. -/
def addB64Padding (cs : List Char) : List Char :=
  cs ++ List.replicate ((4 - cs.length % 4) % 4) '='

/-- `raw.rstrip(b"\x00")`. -/
def stripTrailingZeros (bs : List Nat) : List Nat :=
  (bs.reverse.dropWhile (fun b => b = 0)).reverse

/-- `payload.strip()`: drop leading and trailing whitespace. -/
def stripWs (cs : List Char) : List Char :=
  ((cs.dropWhile Char.isWhitespace).reverse.dropWhile Char.isWhitespace).reverse

/-! ### The codec pipeline -/

/-- `sync.py`: `ZLIB_COMPRESSION_LEVEL = 9` (maximum compression). -/
def ZLIB_COMPRESSION_LEVEL : Nat := 9

/-- `sync.py`: `ZLIB_WBITS = 15` (full zlib format with header and
checksum). -/
def ZLIB_WBITS : Nat := 15

/-- The per-(resource, operation) compression settings from
`sync-config.json`'s `compression` object. -/
structure CompressionConfig where
  minSize : Nat
  padIfSmaller : Bool
deriving DecidableEq

/-- `SyncUpdateManager._encode_payload` (sync.py): JSON-serialize the ordered
map (compact, insertion order), UTF-8 encode, compress with the external zlib
(full format, level 9 — passed in as `compress`, an abstract collaborator),
right-pad with zero bytes to `min_size` when configured and smaller, URL-safe
base64 encode, and strip the trailing `=` padding. -/
def encodePayload (compress : List Nat → List Nat) (cfg : CompressionConfig)
    (payload : SyncPayload) : List Char :=
  let jsonBytes := utf8Encode (serObject payload)
  let compressed := compress jsonBytes
  let padded :=
    if cfg.padIfSmaller && compressed.length < cfg.minSize then
      compressed ++ List.replicate (cfg.minSize - compressed.length) 0
    else compressed
  stripTrailingEq ((b64EncodeChunks padded).map toUrlsafe)

/-- The base64 stage of `decode_sync_payload` (tests/utils/sync_payload.py):
strip whitespace, translate the URL-safe characters back, re-add `=` padding
to a multiple of four, and base64-decode. -/
def decodeBase64Stage (payload : List Char) : Option (List Nat) :=
  b64DecodeChunks (addB64Padding ((stripWs payload).map fromUrlsafe))

/-- `decode_sync_payload` (tests/utils/sync_payload.py): base64-decode, strip
trailing zero bytes, inflate with the external zlib (`decompress`, an abstract
collaborator returning `none` on a `zlib.error`), UTF-8 decode, and parse the
JSON text. -/
def decodeSyncPayload (decompress : List Nat → Option (List Nat))
    (payload : List Char) : Option SyncPayload :=
  Option.bind (decodeBase64Stage payload) (fun raw =>
    Option.bind (decompress (stripTrailingZeros raw)) (fun inflated =>
      Option.bind (utf8Decode inflated) parseSyncJson))

/-! ### Payload validity -/

/-- A sign token of a serialized number: empty or a single minus. -/
def SignTok (l : List Char) : Prop := l = [] ∨ l = ['-']

/-- All characters are decimal digits. -/
def digitsOnly (l : List Char) : Bool := l.all isDigitCh

/-- An exponent part: marker, optional sign, one or more digits. -/
def ExpPart (l : List Char) : Prop :=
  ∃ e sgn xs, (e = 'e' ∨ e = 'E') ∧ (sgn = [] ∨ sgn = ['+'] ∨ sgn = ['-'])
    ∧ xs ≠ [] ∧ digitsOnly xs = true ∧ l = e :: (sgn ++ xs)

/-- A well-formed non-integer number token, the shape `repr(float)` produces:
either `sign digits . digits [exp]` or `sign digits exp`. -/
def FloatTok (s : String) : Prop :=
  (∃ neg ds fs ex, SignTok neg ∧ ds ≠ [] ∧ digitsOnly ds = true
      ∧ fs ≠ [] ∧ digitsOnly fs = true ∧ (ex = [] ∨ ExpPart ex)
      ∧ s.data = neg ++ ds ++ '.' :: (fs ++ ex))
  ∨ (∃ neg ds ex, SignTok neg ∧ ds ≠ [] ∧ digitsOnly ds = true ∧ ExpPart ex
      ∧ s.data = neg ++ ds ++ ex)

/-- Validity of one payload value: number literals must be well-formed float
tokens; every other form is valid as built. -/
def JValValid : JVal → Prop
  | JVal.numLit s => FloatTok s
  | _ => True

/-- A valid payload: what `_build_payload` can produce — a Python dict, so
keys are distinct, and every value well-formed. -/
def PayloadValid (p : SyncPayload) : Prop :=
  (p.map Prod.fst).Nodup ∧ ∀ kv ∈ p, JValValid kv.2

/-! ### Concrete compression collaborators

The external `zlib` is an abstract collaborator of the codec. For concrete
evaluation, two executable stand-ins satisfying the compress/decompress
inversion contract: one whose compressed stream ends in a zero byte (the
full zlib format permits this — the stream ends in the Adler-32 checksum,
whose final byte can be `0x00`), and one whose stream ends in a nonzero
byte. -/

/-- A contract-satisfying compressor whose output stream ends in a zero
byte. -/
def zeroTailCompress (bs : List Nat) : List Nat := bs ++ [0]

/-- The inverse of `zeroTailCompress`: accepts exactly the streams it
produces. -/
def zeroTailDecompress (bs : List Nat) : Option (List Nat) :=
  if bs.getLast? = some 0 then some bs.dropLast else none

/-- A contract-satisfying compressor whose output stream ends in a nonzero
byte. -/
def oneTailCompress (bs : List Nat) : List Nat := bs ++ [1]

/-- The inverse of `oneTailCompress`. -/
def oneTailDecompress (bs : List Nat) : Option (List Nat) :=
  if bs.getLast? = some 1 then some bs.dropLast else none

/-- A concrete payload in the shape `_build_payload` produces (string and
float-formatted fields). -/
def examplePayload : SyncPayload :=
  [("Operation", JVal.str "AddExpense"), ("amount", JVal.numLit "25.5")]

/-! ### Sync orchestration model

`client.py` and `sync.py` operate on a SQLite connection; here the store is
explicit state: the stored transaction records plus the `SyncUpdate` rows.
Records carry the fields the modelled update paths store (`amount`,
`notes`); the caller's currency inputs are threaded through
`normalizeForexInputs` above — whose fourth block mirrors
`currency_amount := amount` — before the changed fields are collected,
while the record's stored currency columns and the rounding policy
(modelled separately via `roundCurrencyAmount`) are elided: the fan-out
counts changed-field names, and `create_updates_for_changes` ignores the
values.
`uuid.uuid4()` is a draw from a seed threaded through the store, and
`_build_payload` — driven by `sync-config.json`, a pure mapping of the final
record's fields and the operation name into the native payload dict — is
kept symbolic as the pair of the record and the operation. -/

inductive ResourceKind
  | expense
  | income
  | transfer
deriving DecidableEq

/-- `type(record).__name__` for the three record dataclasses. -/
def recordClassName : ResourceKind → String
  | ResourceKind.expense => "ExpenseRecord"
  | ResourceKind.income => "IncomeRecord"
  | ResourceKind.transfer => "TransferRecord"

/-- The capitalized resource label used in the repository's `NotFoundError`
messages and the batch layer's `ValueError` labels. -/
def kindLabel : ResourceKind → String
  | ResourceKind.expense => "Expense"
  | ResourceKind.income => "Income"
  | ResourceKind.transfer => "Transfer"

/-- `SyncUpdateManager._resource_map` (sync.py `__init__`): entries for
`ExpenseRecord` and `IncomeRecord` only. -/
def resourceMap : List (String × String) :=
  [("ExpenseRecord", "expense"), ("IncomeRecord", "income")]

/-- `SyncUpdateManager._get_resource_type`: raises `TypeError` when the
record's class name is not in the map. -/
def getResourceType (k : ResourceKind) : Except String String :=
  match resourceMap.lookup (recordClassName k) with
  | some r => Except.ok r
  | none => Except.error ("Unsupported record type: " ++ recordClassName k)

/-- A stored transaction record, restricted to the fields the modelled
update paths touch. -/
structure TxRecord where
  kind : ResourceKind
  key : Nat
  amount : Rat
  notes : String
deriving DecidableEq

/-- The sync operation names produced by the update/batch paths:
`"Add" ++ label`, `"Update" ++ label`, `"Delete" ++ label`. On these
strings, the test `sync_operation.startswith("Update")` in `batch()` is
exactly the `update` constructor test. -/
inductive SyncOp
  | add (k : ResourceKind)
  | update (k : ResourceKind)
  | delete (k : ResourceKind)
deriving DecidableEq

/-- The operation string handed to the sync manager. -/
def SyncOp.opName : SyncOp → String
  | SyncOp.add k => "Add" ++ kindLabel k
  | SyncOp.update k => "Update" ++ kindLabel k
  | SyncOp.delete k => "Delete" ++ kindLabel k

/-- `sync_operation.startswith("Update")` on the produced names. -/
def SyncOp.isUpdate : SyncOp → Bool
  | SyncOp.update _ => true
  | _ => false

/-- `UPDATE_TYPE_ANY = "Any"` (sync.py). -/
def UPDATE_TYPE_ANY : String := "Any"

/-- One row of the `SyncUpdate` table: `(updateType, uuid, payload)`. The
payload column holds `_encode_payload(_build_payload(record, operation))`, a
pure function of the final record and the operation — kept symbolic as the
pair. -/
structure SyncRow where
  updateType : String
  uuid : Nat
  payload : TxRecord × SyncOp
deriving DecidableEq

/-- The transactional store: records, sync rows, and the uuid seed. -/
structure Db where
  records : List TxRecord
  syncRows : List SyncRow
  rngSeed : Nat
deriving DecidableEq

/-- One `uuid.uuid4()` draw advances the seed. -/
def rngNext (seed : Nat) : Nat := seed + 1

/-- `SyncUpdateManager.create_sync_record` with an explicit operation:
`_build_payload` resolves the resource type (raising `TypeError` for an
unmapped record class), then one row is inserted with a fresh uuid and the
new row key is returned. -/
def createSyncRecord (record : TxRecord) (operation : SyncOp) (db : Db) :
    Except String (Nat × Db) :=
  match getResourceType record.kind with
  | Except.error e => Except.error e
  | Except.ok _ =>
      let row : SyncRow := ⟨UPDATE_TYPE_ANY, db.rngSeed, (record, operation)⟩
      Except.ok (db.syncRows.length + 1,
        { db with syncRows := db.syncRows ++ [row], rngSeed := rngNext db.rngSeed })

/-- `SyncUpdateManager.create_updates_for_changes`: one `create_sync_record`
per changed field, with the complete final record (the field values are
ignored). -/
def createUpdatesForChanges (record : TxRecord) (operation : SyncOp) :
    List String → Db → Except String (List Nat × Db)
  | [], db => Except.ok ([], db)
  | _ :: fs, db =>
    match createSyncRecord record operation db with
    | Except.error e => Except.error e
    | Except.ok (k, db1) =>
      match createUpdatesForChanges record operation fs db1 with
      | Except.error e => Except.error e
      | Except.ok (ks, db2) => Except.ok (k :: ks, db2)

/-- The client-visible state: the transactional store plus the
`enable_sync` attribute, which lives on the client object and is not rolled
back with the store. -/
structure Client where
  db : Db
  enableSync : Bool
deriving DecidableEq

/-- `_run_transaction` (client.py): begin; on success commit; on an
exception roll the store back to its pre-transaction state and re-raise.
Attribute mutations the action performed (its `finally` blocks included)
survive the rollback. -/
def runTransaction {α : Type} (action : Client → Except String α × Client)
    (c : Client) : Except String α × Client :=
  match action c with
  | (Except.ok a, c1) => (Except.ok a, c1)
  | (Except.error e, c1) => (Except.error e, { c1 with db := c.db })

/-- `_collect_changed_fields`: names of the supplied fields in source order
(`amount`, `notes`, `currency`, `currency_amount`); the decimal-place
rounding metadata is excluded. Receives the post-normalization values, so
an amount supplied without a foreign amount also counts `currency_amount`
(mirrored by `_normalize_forex_inputs`). -/
def collectChangedFields (amount : Option Rat) (notes : Option String)
    (currency : Option String) (currency_amount : Option Rat) : List String :=
  (if amount.isSome then ["amount"] else [])
    ++ (if notes.isSome then ["notes"] else [])
    ++ (if currency.isSome then ["currency"] else [])
    ++ (if currency_amount.isSome then ["currency_amount"] else [])

/-- Key lookup among the stored records. -/
def findRecord (db : Db) (kind : ResourceKind) (key : Nat) : Option TxRecord :=
  db.records.find? (fun r => decide (r.kind = kind) && decide (r.key = key))

/-- The repository `update_*` path restricted to `amount`/`notes`: raises
`NotFoundError` for a missing key, applies the supplied fields, stores and
returns the final record. -/
def updateRecord (kind : ResourceKind) (key : Nat) (amount : Option Rat)
    (notes : Option String) (db : Db) : Except String (TxRecord × Db) :=
  match findRecord db kind key with
  | none => Except.error (kindLabel kind ++ " not found")
  | some old =>
      let newr : TxRecord :=
        ⟨old.kind, old.key, amount.getD old.amount, notes.getD old.notes⟩
      Except.ok (newr, { db with records := db.records.map (fun r =>
          if decide (r.kind = kind) && decide (r.key = key) then newr else r) })

/-- `update_expense`/`update_income`/`update_transfer` composed with
`_execute_update_transaction`: normalize the forex inputs (outside the
transaction, with `allow_empty` exactly when notes are supplied), then
inside a transaction run the repository update and — when sync is
enabled — fan `create_updates_for_changes` out over the changed fields
collected from the normalized parameters, with the final record. -/
def executeUpdateTransaction (getRate : String → Rat) (kind : ResourceKind)
    (key : Nat) (amount : Option Rat) (notes : Option String)
    (currency : Option String) (currency_amount : Option Rat)
    (exchange_rate : Option Rat) (c : Client) :
    Except String TxRecord × Client :=
  match normalizeForexInputs getRate amount currency currency_amount
      exchange_rate (kindLabel kind ++ " update") notes.isSome with
  | Except.error e => (Except.error e, c)
  | Except.ok (amount, currency, currency_amount) =>
    runTransaction (fun c0 =>
      match updateRecord kind key amount notes c0.db with
      | Except.error e => (Except.error e, c0)
      | Except.ok (record, db1) =>
        if c0.enableSync then
          match createUpdatesForChanges record (SyncOp.update kind)
              (collectChangedFields amount notes currency currency_amount) db1 with
          | Except.error e => (Except.error e, c0)
          | Except.ok (_, db2) => (Except.ok record, { c0 with db := db2 })
        else (Except.ok record, { c0 with db := db1 })) c

/-- The batch operation actions `_apply_batch_operation` dispatches on. -/
inductive BatchAction
  | add
  | update
  | delete
deriving DecidableEq

/-- One batch operation with the parameters the update paths consume. -/
structure BatchOp where
  resource : ResourceKind
  action : BatchAction
  key : Nat
  amount : Option Rat
  notes : Option String
  currency : Option String
  currency_amount : Option Rat
  exchange_rate : Option Rat
deriving DecidableEq

/-- `_apply_batch_operation` restricted to the modelled fields: `add`
inserts a record built from the parameters; `update` requires at least one
of the four updatable fields, normalizes the forex inputs (mirroring
`currency_amount := amount` in block 4), runs the repository update and
collects the changed fields from the normalized amounts together with the
caller's currency input; `delete` looks the record up and removes it.
Returns the record, the sync operation and the optional changed-field set,
without creating any sync rows itself. -/
def applyBatchOp (getRate : String → Rat) (op : BatchOp) (db : Db) :
    Except String (TxRecord × SyncOp × Option (List String) × Db) :=
  match op.action with
  | BatchAction.add =>
      let record : TxRecord := ⟨op.resource, op.key, op.amount.getD 0, op.notes.getD ""⟩
      Except.ok (record, SyncOp.add op.resource, none,
        { db with records := db.records ++ [record] })
  | BatchAction.update =>
      if op.amount.isNone && op.notes.isNone && op.currency.isNone
          && op.currency_amount.isNone then
        Except.error (kindLabel op.resource ++ " update requires at least one field")
      else
        match normalizeForexInputs getRate op.amount op.currency
            op.currency_amount op.exchange_rate
            (kindLabel op.resource ++ " update") op.notes.isSome with
        | Except.error e => Except.error e
        | Except.ok (amount, _, currency_amount) =>
          match updateRecord op.resource op.key amount op.notes db with
          | Except.error e => Except.error e
          | Except.ok (record, db1) =>
              Except.ok (record, SyncOp.update op.resource,
                some (collectChangedFields amount op.notes op.currency
                  currency_amount), db1)
  | BatchAction.delete =>
      match findRecord db op.resource op.key with
      | none => Except.error (kindLabel op.resource ++ " not found")
      | some record =>
          Except.ok (record, SyncOp.delete op.resource, none,
            { db with records := db.records.filter (fun r =>
                !(decide (r.kind = op.resource) && decide (r.key = op.key))) })

/-- The result object `batch()` returns. -/
structure BatchOperationResult where
  successful : List TxRecord
  failed : List (BatchOp × String)
deriving DecidableEq

/-- The per-operation loop of `batch()`: apply each operation in order; on
an exception, collect it when `continue_on_error` and re-raise otherwise.
Also accumulates the deferred `sync_actions`. -/
def batchLoop (getRate : String → Rat) (continueOnError : Bool) :
    List BatchOp → Db →
    Except String (List TxRecord × List (BatchOp × String)
      × List (TxRecord × SyncOp × Option (List String)) × Db)
  | [], db => Except.ok ([], [], [], db)
  | op :: ops, db =>
    match applyBatchOp getRate op db with
    | Except.ok (record, operation, changed, db1) =>
      match batchLoop getRate continueOnError ops db1 with
      | Except.ok (succ, fail, acts, db2) =>
          Except.ok (record :: succ, fail, (record, operation, changed) :: acts, db2)
      | Except.error e => Except.error e
    | Except.error e =>
      if continueOnError then
        match batchLoop getRate continueOnError ops db with
        | Except.ok (succ, fail, acts, db2) =>
            Except.ok (succ, (op, e) :: fail, acts, db2)
        | Except.error e2 => Except.error e2
      else Except.error e

/-- `changed_fields` truthiness in `batch()`: a non-`None`, non-empty
dict. -/
def changedNonempty : Option (List String) → Bool
  | some (_ :: _) => true
  | _ => false

/-- The consolidated sync phase of `batch()`: per collected action, update
operations with changed fields fan out one row per field; everything else
gets a single sync record. Any `TypeError` from the manager escapes. -/
def emitSyncActions :
    List (TxRecord × SyncOp × Option (List String)) → Db → Except String Db
  | [], db => Except.ok db
  | (record, operation, changed) :: rest, db =>
    let step : Except String Db :=
      if operation.isUpdate && changedNonempty changed then
        match createUpdatesForChanges record operation (changed.getD []) db with
        | Except.error e => Except.error e
        | Except.ok (_, db1) => Except.ok db1
      else
        match createSyncRecord record operation db with
        | Except.error e => Except.error e
        | Except.ok (_, db1) => Except.ok db1
    match step with
    | Except.error e => Except.error e
    | Except.ok db1 => emitSyncActions rest db1

/-- The `action` closure of `batch()`: save and clear `enable_sync`, run
the per-operation loop, restore the flag, then — when sync is enabled —
emit the consolidated sync records; the `finally` restores the flag on
every exit path. -/
def batchAction (getRate : String → Rat) (continueOnError : Bool)
    (operations : List BatchOp) (c : Client) :
    Except String BatchOperationResult × Client :=
  let original := c.enableSync
  let cOff : Client := { c with enableSync := false }
  match batchLoop getRate continueOnError operations cOff.db with
  | Except.error e => (Except.error e, { cOff with enableSync := original })
  | Except.ok (succ, fail, acts, db1) =>
    let cOn : Client := { cOff with db := db1, enableSync := original }
    if cOn.enableSync then
      match emitSyncActions acts cOn.db with
      | Except.error e => (Except.error e, { cOn with enableSync := original })
      | Except.ok db2 => (Except.ok ⟨succ, fail⟩, { cOn with db := db2 })
    else (Except.ok ⟨succ, fail⟩, cOn)

/-- `HomeBudgetClient.batch`: the batch action inside a transaction. -/
def batch (getRate : String → Rat) (continueOnError : Bool)
    (operations : List BatchOp) (c : Client) :
    Except String BatchOperationResult × Client :=
  runTransaction (batchAction getRate continueOnError operations) c

/-- The result object of the `add_*_batch` operations. -/
structure BatchResult where
  successful : List TxRecord
  failed : List (TxRecord × String)
deriving DecidableEq

/-- The per-item loop of `_execute_batch_create_transaction`, over an
abstract repository insert (which may raise for reasons outside the
model). -/
def batchCreateLoop (insertFunc : TxRecord → Db → Except String (TxRecord × Db))
    (continueOnError : Bool) :
    List TxRecord → Db → Except String (List TxRecord × List (TxRecord × String) × Db)
  | [], db => Except.ok ([], [], db)
  | item :: items, db =>
    match insertFunc item db with
    | Except.ok (record, db1) =>
      match batchCreateLoop insertFunc continueOnError items db1 with
      | Except.ok (succ, fail, db2) => Except.ok (record :: succ, fail, db2)
      | Except.error e => Except.error e
    | Except.error e =>
      if continueOnError then
        match batchCreateLoop insertFunc continueOnError items db with
        | Except.ok (succ, fail, db2) => Except.ok (succ, (item, e) :: fail, db2)
        | Except.error e2 => Except.error e2
      else Except.error e

/-- One `create_sync_record` per successful record, in order. -/
def emitCreateSync (operation : SyncOp) : List TxRecord → Db → Except String Db
  | [], db => Except.ok db
  | r :: rs, db =>
    match createSyncRecord r operation db with
    | Except.error e => Except.error e
    | Except.ok (_, db1) => emitCreateSync operation rs db1

/-- `_execute_batch_create_transaction`: save and clear `enable_sync`, run
the insert loop, restore the flag, then — when sync is enabled and at least
one insert succeeded — create one sync record per successful record; the
`finally` restores the flag on every exit path, all inside a
transaction. -/
def executeBatchCreateTransaction
    (insertFunc : TxRecord → Db → Except String (TxRecord × Db))
    (items : List TxRecord) (operation : SyncOp) (continueOnError : Bool)
    (c : Client) : Except String BatchResult × Client :=
  runTransaction (fun c0 =>
    let original := c0.enableSync
    let cOff : Client := { c0 with enableSync := false }
    match batchCreateLoop insertFunc continueOnError items cOff.db with
    | Except.error e => (Except.error e, { cOff with enableSync := original })
    | Except.ok (succ, fail, db1) =>
      let cOn : Client := { cOff with db := db1, enableSync := original }
      if cOn.enableSync && !succ.isEmpty then
        match emitCreateSync operation succ cOn.db with
        | Except.error e => (Except.error e, { cOn with enableSync := original })
        | Except.ok db2 => (Except.ok ⟨succ, fail⟩, { cOn with db := db2 })
      else (Except.ok ⟨succ, fail⟩, cOn)) c

/-- A concrete starting client for the orchestration theorems: one stored
expense, one stored income, one stored transfer; sync enabled. -/
def demoClient : Client :=
  ⟨⟨[⟨ResourceKind.expense, 1, 100, "old"⟩,
     ⟨ResourceKind.income, 2, 40, "salary"⟩,
     ⟨ResourceKind.transfer, 3, 50, "move"⟩], [], 7⟩, true⟩

/-- A concrete batch whose second operation fails and whose third is a
transfer add: [add expense, update a missing expense, add transfer]. -/
def transferBatchOps : List BatchOp :=
  [⟨ResourceKind.expense, BatchAction.add, 10, some 20, some "a", none, none, none⟩,
   ⟨ResourceKind.expense, BatchAction.update, 99, some 1, none, none, none, none⟩,
   ⟨ResourceKind.transfer, BatchAction.add, 11, some 5, none, none, none, none⟩]

/-- A concrete batch whose second operation fails and whose other
operations touch mapped resource types only: [add expense, update a missing
income, update the stored income]. -/
def mappedBatchOps : List BatchOp :=
  [⟨ResourceKind.expense, BatchAction.add, 10, some 20, some "a", none, none, none⟩,
   ⟨ResourceKind.income, BatchAction.update, 99, some 1, none, none, none, none⟩,
   ⟨ResourceKind.income, BatchAction.update, 2, some 45, none, none, none, none⟩]


/-! ## Theorems: Currency/Rounding Normalizer claims -/

/-- C4 (counterexample): with `amount` and `currency_amount` both supplied,
numerically equal, and no exchange rate — the case the claim says raises no
error — the normalizer still raises a validation error when no foreign
currency is supplied, because the equalized `currency_amount` then flows into
the block that requires `currency`. -/
theorem normalize_equal_amounts_error_without_currency :
    normalizeForexInputs (fun _ => 1) (some 5) none (some 5) none "Expense update" true
      = Except.error "Expense update: currency is required with currency_amount" := by
  simp [normalizeForexInputs, Bind.bind, Except.bind]

/-- C4 (amended): the Currency/Rounding Normalizer raises a validation error
when (a) amount, foreign amount and exchange rate are all supplied, (b) amount
and foreign amount are supplied without a rate and are unequal, and (c)
neither amount nor foreign amount is supplied and `allow_empty` is false.  In
case (b) with equal values no error is raised *provided a non-blank foreign
currency is also supplied*; the equal value is kept as the foreign amount
while the canonical amount is recomputed as that value times the (possibly
provider-supplied) exchange rate. -/
theorem normalizeForexInputs_validation_errors :
    (∀ (getRate : String → ℚ) a c ca r l ae,
        normalizeForexInputs getRate (some a) c (some ca) (some r) l ae
          = Except.error (l ++ ": provide amount or currency_amount with exchange_rate, not both"))
    ∧ (∀ (getRate : String → ℚ) a c ca l ae, a ≠ ca →
        normalizeForexInputs getRate (some a) c (some ca) none l ae
          = Except.error (l ++ ": provide amount or currency_amount with exchange_rate, not both"))
    ∧ (∀ (getRate : String → ℚ) c r l,
        normalizeForexInputs getRate none c none r l false
          = Except.error (l ++ ": amount or currency_amount is required"))
    ∧ (∀ (getRate : String → ℚ) a cu l ae, strBlank cu = false →
        normalizeForexInputs getRate (some a) (some cu) (some a) none l ae
          = Except.ok (some (a * getRate cu), some cu, some a)) := by
  refine ⟨?_, ?_, ?_, ?_⟩
  · intro getRate a c ca r l ae
    simp [normalizeForexInputs, Bind.bind, Except.bind]
  · intro getRate a c ca l ae h
    simp [normalizeForexInputs, Bind.bind, Except.bind, h]
  · intro getRate c r l
    simp [normalizeForexInputs, Bind.bind, Except.bind]
  · intro getRate a cu l ae h
    simp [normalizeForexInputs, Bind.bind, Except.bind, h]

/-- C4 witness: the amended theorem applied at concrete inputs. -/
theorem normalizeForexInputs_validation_errors_witness :
    normalizeForexInputs (fun _ => 2) (some 5) (some "EUR") (some 4) none "L" false
      = Except.error "L: provide amount or currency_amount with exchange_rate, not both"
    ∧ normalizeForexInputs (fun _ => 2) (some 5) (some "EUR") (some 5) none "L" false
      = Except.ok (some (5 * 2), some "EUR", some 5) := by
  constructor
  · exact normalizeForexInputs_validation_errors.2.1 (fun _ => 2) 5 (some "EUR") 4 "L" false
      (by norm_num)
  · exact normalizeForexInputs_validation_errors.2.2.2 (fun _ => 2) 5 "EUR" "L" false (by decide)

/-- C5 (counterexample): the batch-add resolver does *not* fall back to the
injected rate provider when `exchange_rate` is absent — it raises a validation
error instead. -/
theorem resolveBatchForexAdd_requires_explicit_rate :
    resolveBatchForexAdd none (some "EUR") (some 10) none "Expense add"
      = Except.error "Expense add: exchange_rate is required with currency_amount" := by
  simp [resolveBatchForexAdd, Bind.bind, Except.bind]

/-- C5 (amended): on the update-path normalizer, whenever a foreign amount is
supplied, an absent or blank foreign currency is a validation error, and with
a non-blank currency and no explicit rate the canonical amount is
`foreign_amount * rate` with the rate obtained from the injected provider as
`rate(foreign_currency, base)`.  The batch-add resolver instead *requires* an
explicit exchange rate and raises a validation error when it is absent. -/
theorem forex_rate_provider_fallback :
    (∀ (getRate : String → ℚ) a ca r l ae,
        isErr (normalizeForexInputs getRate a none (some ca) r l ae) = true)
    ∧ (∀ (getRate : String → ℚ) a cu ca r l ae, strBlank cu = true →
        isErr (normalizeForexInputs getRate a (some cu) (some ca) r l ae) = true)
    ∧ (∀ (getRate : String → ℚ) cu ca l ae, strBlank cu = false →
        normalizeForexInputs getRate none (some cu) (some ca) none l ae
          = Except.ok (some (ca * getRate cu), some cu, some ca))
    ∧ (∀ (provider : String → String → ℚ) base cu,
        getForexRate true provider base cu = provider cu base)
    ∧ (∀ cu ca l,
        resolveBatchForexAdd none cu (some ca) none l
          = Except.error (l ++ ": exchange_rate is required with currency_amount")) := by
  refine ⟨?_, ?_, ?_, ?_, ?_⟩
  · intro getRate a ca r l ae
    match a, r with
    | some a, some r => simp [normalizeForexInputs, Bind.bind, Except.bind, isErr]
    | some a, none =>
        by_cases h : a = ca
        · subst h; simp [normalizeForexInputs, Bind.bind, Except.bind, isErr]
        · simp [normalizeForexInputs, Bind.bind, Except.bind, isErr, h]
    | none, r => simp [normalizeForexInputs, Bind.bind, Except.bind, isErr]
  · intro getRate a cu ca r l ae h
    match a, r with
    | some a, some r => simp [normalizeForexInputs, Bind.bind, Except.bind, isErr]
    | some a, none =>
        by_cases hne : a = ca
        · subst hne; simp [normalizeForexInputs, Bind.bind, Except.bind, isErr, h]
        · simp [normalizeForexInputs, Bind.bind, Except.bind, isErr, hne]
    | none, r => simp [normalizeForexInputs, Bind.bind, Except.bind, isErr, h]
  · intro getRate cu ca l ae h
    simp [normalizeForexInputs, Bind.bind, Except.bind, h]
  · intro provider base cu
    simp [getForexRate]
  · intro cu ca l
    simp [resolveBatchForexAdd, Bind.bind, Except.bind]

/-- C5 witness: the amended theorem applied at concrete inputs. -/
theorem forex_rate_provider_fallback_witness :
    isErr (normalizeForexInputs (fun _ => 1) none none (some 10) none "L" false) = true
    ∧ normalizeForexInputs (fun c => if c = "EUR" then 3 else 0) none (some "EUR") (some 10) none "L" false
      = Except.ok (some (10 * (if ("EUR" : String) = "EUR" then (3 : ℚ) else 0)), some "EUR", some 10) := by
  constructor
  · exact forex_rate_provider_fallback.1 (fun _ => 1) none 10 none "L" false
  · exact forex_rate_provider_fallback.2.2.1 (fun c => if c = "EUR" then 3 else 0) "EUR" 10 "L"
      false (by decide)

/-- C6 (counterexample): at a rate of exactly 100 the code resolves 0 decimal
places (the comparison is `>=`), while the claim's rule ("exceeds the
threshold") gives 2. -/
theorem decimal_places_at_threshold :
    getCurrencyDecimalPlaces true (fun _ _ => some 100) "IDR" = 0
    ∧ specDecimalPlaces 100 = 2 := by
  constructor
  · simp [getCurrencyDecimalPlaces, HIGH_VALUE_RATE_THRESHOLD]
  · simp [specDecimalPlaces, HIGH_VALUE_RATE_THRESHOLD]

/-- C6 (amended): the resolved decimal-place count is 0 when the rate from the
reference currency is *at least* the threshold 100 (not strictly above it) and
2 otherwise; the resolved count is always 0 or 2; and on the update storage
path each of amount and foreign amount is quantized (banker's rounding) to its
resolved decimal-place count, i.e. `value * 10 ^ places` is an integer. -/
theorem decimal_places_and_rounding :
    (∀ (getRate : String → String → Option ℚ) c r, getRate REF_CURRENCY c = some r →
        (getCurrencyDecimalPlaces true getRate c = 0 ↔ r ≥ HIGH_VALUE_RATE_THRESHOLD)
        ∧ (¬ r ≥ HIGH_VALUE_RATE_THRESHOLD → getCurrencyDecimalPlaces true getRate c = 2))
    ∧ (∀ dp p, resolveDecimalPlaces dp = Except.ok p → p = 0 ∨ p = 2)
    ∧ (∀ (x : ℚ) p, p = 0 ∨ p = 2 → (roundCurrencyAmount x p * 10 ^ p).den = 1)
    ∧ (∀ (a ca : ℚ) ap cap aOut caOut,
        updateStoredAmounts (some a) (some ca) ap cap = Except.ok (some aOut, some caOut) →
        ∃ pa pca, resolveDecimalPlaces ap = Except.ok pa
          ∧ resolveDecimalPlaces (match cap with | some p => some p | none => ap) = Except.ok pca
          ∧ aOut = roundCurrencyAmount a pa ∧ caOut = roundCurrencyAmount ca pca) := by
  refine ⟨?_, ?_, ?_, ?_⟩
  · intro getRate c r h
    constructor
    · constructor
      · intro h0
        by_contra hr
        simp [getCurrencyDecimalPlaces, h, hr] at h0
      · intro hr
        simp [getCurrencyDecimalPlaces, h, hr]
    · intro hr
      simp [getCurrencyDecimalPlaces, h, hr]
  · intro dp p h
    match dp with
    | none =>
        simp only [resolveDecimalPlaces, Except.ok.injEq] at h
        omega
    | some d =>
        by_cases hd : d = 0 ∨ d = 2
        · simp [resolveDecimalPlaces, hd] at h
          omega
        · simp [resolveDecimalPlaces, hd] at h
  · intro x p hp
    rcases hp with hp | hp <;> subst hp
    · simp [roundCurrencyAmount, Rat.den_intCast]
    · have h1 : roundCurrencyAmount x 2 = ((roundHalfEven (x * 100) : ℤ) : ℚ) / 100 := by
        simp [roundCurrencyAmount]
      rw [h1, show ((10 : ℚ) ^ 2) = 100 by norm_num, div_mul_cancel₀]
      · exact Rat.den_intCast _
      · norm_num
  · intro a ca ap cap aOut caOut h
    simp only [updateStoredAmounts, Bind.bind, Except.bind] at h
    cases cap with
    | none =>
        dsimp only at h
        generalize hq : resolveDecimalPlaces ap = q at h
        cases q with
        | error e => simp at h
        | ok pa =>
            simp only [Except.ok.injEq, Prod.mk.injEq, Option.some.injEq] at h
            exact ⟨pa, pa, rfl, rfl, h.1.symm, h.2.symm⟩
    | some p =>
        dsimp only at h
        generalize hqa : resolveDecimalPlaces ap = qa at h
        cases qa with
        | error e => simp at h
        | ok pa =>
            generalize hqca : resolveDecimalPlaces (some p) = qca at h
            cases qca with
            | error e2 => simp at h
            | ok pca =>
                simp only [Except.ok.injEq, Prod.mk.injEq, Option.some.injEq] at h
                exact ⟨pa, pca, rfl, rfl, h.1.symm, h.2.symm⟩

/-- C6 witness: the amended theorem applied at concrete inputs. -/
theorem decimal_places_and_rounding_witness :
    (getCurrencyDecimalPlaces true (fun _ _ => some 250) "VND" = 0 ↔ (250 : ℚ) ≥ HIGH_VALUE_RATE_THRESHOLD)
    ∧ (roundCurrencyAmount (5/2) 2 * 10 ^ 2).den = 1 := by
  constructor
  · exact ((decimal_places_and_rounding.1 (fun _ _ => some 250) "VND" 250 rfl).1)
  · exact decimal_places_and_rounding.2.2.1 (5/2) 2 (Or.inr rfl)

/-- C8 (counterexample): DTO validation accepts a record with a foreign amount
and no foreign currency, so the claimed "if and only if" fails in the
amount-to-currency direction. -/
theorem validateCurrency_accepts_amount_without_currency :
    validateCurrencyDTO none (some 10) = Except.ok ()
    ∧ ¬(((none : Option String)).isSome = true ↔ ((some (10 : ℚ))).isSome = true) := by
  constructor
  · rfl
  · decide

/-- C8 (amended): validation-accepted records satisfy only the forward
direction of the claimed invariant: if the foreign currency is set then the
foreign amount is set.  The converse fails (see the counterexample): a foreign
amount may be stored without a foreign currency. -/
theorem currency_implies_currency_amount :
    ∀ (c : Option String) (ca : Option ℚ),
      validateCurrencyDTO c ca = Except.ok () → c.isSome = true → ca.isSome = true := by
  intro c ca h hc
  match c, ca with
  | some c, some ca => rfl
  | some c, none =>
      by_cases hb : strBlank c
      · simp [validateCurrencyDTO, hb] at h
      · simp [validateCurrencyDTO, hb] at h
  | none, _ => simp at hc

/-- C8 witness: the amended theorem applied at a concrete accepted record. -/
theorem currency_implies_currency_amount_witness :
    (some (5 : ℚ)).isSome = true :=
  currency_implies_currency_amount (some "EUR") (some 5) (by rfl) (by rfl)

/-! ## Codec lemmas: base64 -/

/-- Decoding inverts the alphabet map on 6-bit values. -/
theorem b64Index_b64Char (n : Nat) (h : n < 64) : b64Index (b64Char n) = some n := by
  have : ∀ m : Fin 64, b64Index (b64Char m.val) = some m.val := by decide
  exact this ⟨n, h⟩

/-- Alphabet characters are never the padding character. -/
theorem b64Char_ne_pad (n : Nat) (h : n < 64) : b64Char n ≠ '=' := by
  have : ∀ m : Fin 64, b64Char m.val ≠ '=' := by decide
  exact this ⟨n, h⟩

/-- Every character of a base64 encoding is an alphabet character or `=`. -/
theorem b64EncodeChunks_mem (bs : List Nat) (hb : ∀ b ∈ bs, b < 256) :
    ∀ c ∈ b64EncodeChunks bs, c ∈ b64Alphabet ∨ c = '=' := by
  have hmem : ∀ n : Nat, n < 64 → b64Char n ∈ b64Alphabet := by
    have hfin : ∀ m : Fin 64, b64Char m.val ∈ b64Alphabet := by decide
    exact fun n hn => hfin ⟨n, hn⟩
  induction bs using b64EncodeChunks.induct with
  | case1 => intro c hc; simp [b64EncodeChunks] at hc
  | case2 b1 =>
      have h1 : b1 < 256 := hb b1 (by simp)
      intro c hc
      simp [b64EncodeChunks] at hc
      rcases hc with h | h | h
      · exact Or.inl (h ▸ hmem _ (by omega))
      · exact Or.inl (h ▸ hmem _ (by omega))
      · exact Or.inr h
  | case3 b1 b2 =>
      have h1 : b1 < 256 := hb b1 (by simp)
      have h2 : b2 < 256 := hb b2 (by simp)
      intro c hc
      simp [b64EncodeChunks] at hc
      rcases hc with h | h | h | h
      · exact Or.inl (h ▸ hmem _ (by omega))
      · exact Or.inl (h ▸ hmem _ (by omega))
      · exact Or.inl (h ▸ hmem _ (by omega))
      · exact Or.inr h
  | case4 b1 b2 b3 rest ih =>
      have h1 : b1 < 256 := hb b1 (by simp)
      have h2 : b2 < 256 := hb b2 (by simp)
      have h3 : b3 < 256 := hb b3 (by simp)
      have hrest : ∀ b ∈ rest, b < 256 := fun b h => hb b (by simp [h])
      intro c hc
      simp only [b64EncodeChunks, List.mem_cons] at hc
      rcases hc with h | h | h | h | h
      · exact Or.inl (h ▸ hmem _ (by omega))
      · exact Or.inl (h ▸ hmem _ (by omega))
      · exact Or.inl (h ▸ hmem _ (by omega))
      · exact Or.inl (h ▸ hmem _ (by omega))
      · exact ih hrest c h

/-- base64 encoding has no trailing `=` exactly on the final partial group,
and decoding the encoding recovers the bytes. -/
theorem b64DecodeChunks_b64EncodeChunks (bs : List Nat) (hb : ∀ b ∈ bs, b < 256) :
    b64DecodeChunks (b64EncodeChunks bs) = some bs := by
  induction bs using b64EncodeChunks.induct with
  | case1 => rfl
  | case2 b1 =>
      have h1 : b1 < 256 := hb b1 (by simp)
      have e1 := b64Index_b64Char (b1 / 4) (by omega)
      have e2 := b64Index_b64Char (b1 % 4 * 16) (by omega)
      have r1 : b1 / 4 * 4 + b1 % 4 * 16 / 16 = b1 := by omega
      have r1b : b1 / 4 * 4 + b1 % 4 = b1 := by omega
      simp [b64EncodeChunks, b64DecodeChunks, b64DecodeChunk, e1, e2, r1, r1b]
  | case3 b1 b2 =>
      have h1 : b1 < 256 := hb b1 (by simp)
      have h2 : b2 < 256 := hb b2 (by simp)
      have e1 := b64Index_b64Char (b1 / 4) (by omega)
      have e2 := b64Index_b64Char (b1 % 4 * 16 + b2 / 16) (by omega)
      have e3 := b64Index_b64Char (b2 % 16 * 4) (by omega)
      have ne3 : b64Char (b2 % 16 * 4) ≠ '=' := b64Char_ne_pad _ (by omega)
      have r1 : b1 / 4 * 4 + (b1 % 4 * 16 + b2 / 16) / 16 = b1 := by omega
      have r2 : (b1 % 4 * 16 + b2 / 16) % 16 * 16 + b2 % 16 * 4 / 4 = b2 := by omega
      have r2b : (b1 % 4 * 16 + b2 / 16) % 16 * 16 + b2 % 16 = b2 := by omega
      simp [b64EncodeChunks, b64DecodeChunks, b64DecodeChunk, e1, e2, e3, ne3, r1, r2, r2b]
  | case4 b1 b2 b3 rest ih =>
      have h1 : b1 < 256 := hb b1 (by simp)
      have h2 : b2 < 256 := hb b2 (by simp)
      have h3 : b3 < 256 := hb b3 (by simp)
      have hrest : ∀ b ∈ rest, b < 256 := fun b h => hb b (by simp [h])
      have e1 := b64Index_b64Char (b1 / 4) (by omega)
      have e2 := b64Index_b64Char (b1 % 4 * 16 + b2 / 16) (by omega)
      have e3 := b64Index_b64Char (b2 % 16 * 4 + b3 / 64) (by omega)
      have e4 := b64Index_b64Char (b3 % 64) (by omega)
      have r1 : b1 / 4 * 4 + (b1 % 4 * 16 + b2 / 16) / 16 = b1 := by omega
      have r2 : (b1 % 4 * 16 + b2 / 16) % 16 * 16 + (b2 % 16 * 4 + b3 / 64) / 4 = b2 := by omega
      have r3 : (b2 % 16 * 4 + b3 / 64) % 4 * 64 + b3 % 64 = b3 := by omega
      have r2b : (b1 % 4 * 16 + b2 / 16) % 16 * 16 + b2 % 16 = b2 := by omega
      cases hr : rest with
      | nil =>
          have ne3 : b64Char (b2 % 16 * 4 + b3 / 64) ≠ '=' := b64Char_ne_pad _ (by omega)
          have ne4 : b64Char (b3 % 64) ≠ '=' := b64Char_ne_pad _ (by omega)
          simp [b64EncodeChunks, b64DecodeChunks, b64DecodeChunk, e1, e2, e3, e4,
            ne3, ne4, r1, r2, r3, r2b]
      | cons x xs =>
          rw [hr] at ih hrest
          have hie : (b64EncodeChunks (x :: xs)).isEmpty = false := by
            cases xs with
            | nil => simp [b64EncodeChunks]
            | cons y ys =>
                cases ys with
                | nil => simp [b64EncodeChunks]
                | cons z zs => simp [b64EncodeChunks]
          simp [b64EncodeChunks, b64DecodeChunks, hie, e1, e2, e3, e4, ih hrest, r1, r2, r3, r2b]

/-- Dropping while a predicate holds leaves a list whose elements all satisfy
it untouched only when the head already fails the predicate. -/
theorem dropWhile_all_false {α : Type} (p : α → Bool) :
    ∀ l : List α, (∀ x ∈ l, p x = false) → l.dropWhile p = l
  | [], _ => rfl
  | x :: xs, h => by simp [List.dropWhile_cons, h x (by simp)]

/-- A list whose last element fails the predicate loses nothing to a
reverse-side `dropWhile`. -/
theorem dropWhile_head_false {α : Type} (p : α → Bool) :
    ∀ (l : List α) (x : α), l.head? = some x → p x = false → l.dropWhile p = l
  | y :: ys, x, h, hp => by
      simp only [List.head?_cons, Option.some.injEq] at h
      subst h
      simp [List.dropWhile_cons, hp]

/-- `rstrip(b"\x00")` undoes zero right-padding whenever the unpadded bytes
end in a nonzero byte. -/
theorem stripTrailingZeros_pad (bs : List Nat) (k : Nat) (z : Nat)
    (hz : bs.getLast? = some z) (hnz : z ≠ 0) :
    stripTrailingZeros (bs ++ List.replicate k 0) = bs := by
  unfold stripTrailingZeros
  rw [List.reverse_append, List.reverse_replicate,
    List.dropWhile_append_of_pos (by simp [List.mem_replicate]),
    dropWhile_head_false _ bs.reverse z (by simp [hz]) (by simp [hnz]),
    List.reverse_reverse]

/-- The `=`-strip of the decoder's translation step commutes with the
URL-safe character map. -/
theorem stripTrailingEq_map_toUrlsafe (l : List Char) :
    stripTrailingEq (l.map toUrlsafe) = (stripTrailingEq l).map toUrlsafe := by
  have hp : (fun c => decide (c = '=')) ∘ toUrlsafe = fun c => decide (c = '=') := by
    funext c
    by_cases h1 : c = '+'
    · subst h1; rfl
    · by_cases h2 : c = '/'
      · subst h2; rfl
      · simp [toUrlsafe, h1, h2]
  unfold stripTrailingEq
  rw [← List.map_reverse, List.dropWhile_map, hp, List.map_reverse]

/-- A list containing a non-`=` character does not strip to nothing. -/
theorem stripTrailingEq_ne_nil (l : List Char) (c : Char) (hc : c ∈ l) (hne : c ≠ '=') :
    stripTrailingEq l ≠ [] := by
  intro h
  unfold stripTrailingEq at h
  have h2 : l.reverse.dropWhile (fun x => decide (x = '=')) = [] := by
    have := congrArg List.reverse h
    simpa using this
  have h3 := (List.dropWhile_eq_nil_iff).mp h2 c (by simp [hc])
  simp at h3
  exact hne h3

/-- The `=`-strip passes over a four-character group whose tail does not
strip to nothing. -/
theorem stripTrailingEq_append_four (q1 q2 q3 q4 : Char) (l : List Char)
    (hne : stripTrailingEq l ≠ []) :
    stripTrailingEq (q1 :: q2 :: q3 :: q4 :: l)
      = q1 :: q2 :: q3 :: q4 :: stripTrailingEq l := by
  unfold stripTrailingEq at hne ⊢
  have hd : ((l.reverse.dropWhile (fun c => decide (c = '='))).isEmpty) = false := by
    cases hdw : l.reverse.dropWhile (fun c => decide (c = '=')) with
    | nil => exact absurd (by simp [hdw]) hne
    | cons a as => rfl
  rw [show q1 :: q2 :: q3 :: q4 :: l = [q1, q2, q3, q4] ++ l from rfl,
    List.reverse_append, List.dropWhile_append, hd]
  simp

/-- Padding to a multiple of four passes over a leading four-character
group. -/
theorem addB64Padding_append_four (q1 q2 q3 q4 : Char) (l : List Char) :
    addB64Padding (q1 :: q2 :: q3 :: q4 :: l)
      = q1 :: q2 :: q3 :: q4 :: addB64Padding l := by
  unfold addB64Padding
  have hmod : (4 - (q1 :: q2 :: q3 :: q4 :: l).length % 4) % 4
      = (4 - l.length % 4) % 4 := by
    simp only [List.length_cons]
    omega
  rw [hmod]
  simp

/-- Re-adding `=` padding after the `rstrip("=")` restores a base64
encoding exactly. -/
theorem addB64Padding_stripTrailingEq (bs : List Nat) (hb : ∀ b ∈ bs, b < 256) :
    addB64Padding (stripTrailingEq (b64EncodeChunks bs)) = b64EncodeChunks bs := by
  induction bs using b64EncodeChunks.induct with
  | case1 => rfl
  | case2 b1 =>
      have h1 : b1 < 256 := hb b1 (by simp)
      have ne2 : b64Char (b1 % 4 * 16) ≠ '=' := b64Char_ne_pad _ (by omega)
      simp only [b64EncodeChunks]
      unfold stripTrailingEq
      simp [List.dropWhile_cons, ne2, addB64Padding]
  | case3 b1 b2 =>
      have h2 : b2 < 256 := hb b2 (by simp)
      have ne3 : b64Char (b2 % 16 * 4) ≠ '=' := b64Char_ne_pad _ (by omega)
      simp only [b64EncodeChunks]
      unfold stripTrailingEq
      simp [List.dropWhile_cons, ne3, addB64Padding]
  | case4 b1 b2 b3 rest ih =>
      have h3 : b3 < 256 := hb b3 (by simp)
      have hrest : ∀ b ∈ rest, b < 256 := fun b h => hb b (by simp [h])
      have ne4 : b64Char (b3 % 64) ≠ '=' := b64Char_ne_pad _ (by omega)
      cases hr : rest with
      | nil =>
          simp only [b64EncodeChunks]
          unfold stripTrailingEq
          simp [List.dropWhile_cons, ne4, addB64Padding]
      | cons x xs =>
          rw [hr] at ih hrest
          have hne : stripTrailingEq (b64EncodeChunks (x :: xs)) ≠ [] := by
            apply stripTrailingEq_ne_nil _ (b64Char (x / 4))
            · cases xs with
              | nil => simp [b64EncodeChunks]
              | cons y ys =>
                  cases ys with
                  | nil => simp [b64EncodeChunks]
                  | cons z zs => simp [b64EncodeChunks]
            · exact b64Char_ne_pad _ (by have := hrest x (by simp); omega)
          rw [show b64EncodeChunks (b1 :: b2 :: b3 :: x :: xs)
              = b64Char (b1 / 4) :: b64Char (b1 % 4 * 16 + b2 / 16)
                :: b64Char (b2 % 16 * 4 + b3 / 64) :: b64Char (b3 % 64)
                :: b64EncodeChunks (x :: xs) from rfl,
            stripTrailingEq_append_four _ _ _ _ _ hne,
            addB64Padding_append_four, ih hrest]

/-- URL-safe images of encoding characters are never whitespace, so the
decoder's `strip()` is the identity on encoded payloads. -/
theorem urlsafe_not_ws (c : Char) (h : c ∈ b64Alphabet ∨ c = '=') :
    (toUrlsafe c).isWhitespace = false := by
  rcases h with h | h
  · have hall : b64Alphabet.all (fun c => !(toUrlsafe c).isWhitespace) = true := by decide
    simpa using List.all_eq_true.mp hall c h
  · subst h; decide

/-- The decoder's translation undoes the encoder's on every character the
encoder can emit. -/
theorem urlsafe_inverse (c : Char) (h : c ∈ b64Alphabet ∨ c = '=') :
    fromUrlsafe (toUrlsafe c) = c := by
  rcases h with h | h
  · have hall : b64Alphabet.all (fun c => decide (fromUrlsafe (toUrlsafe c) = c)) = true := by
      decide
    simpa using List.all_eq_true.mp hall c h
  · subst h; decide

/-- `strip()` leaves a whitespace-free string unchanged. -/
theorem stripWs_eq_self (l : List Char) (h : ∀ c ∈ l, c.isWhitespace = false) :
    stripWs l = l := by
  unfold stripWs
  rw [dropWhile_all_false _ l h,
    dropWhile_all_false _ l.reverse (fun c hc => h c (List.mem_reverse.mp hc)),
    List.reverse_reverse]

/-- Characters surviving the `=`-strip come from the original list. -/
theorem mem_of_mem_stripTrailingEq (l : List Char) (c : Char)
    (hc : c ∈ stripTrailingEq l) : c ∈ l := by
  unfold stripTrailingEq at hc
  have h1 := List.mem_reverse.mp hc
  have h2 := (List.dropWhile_sublist (l := l.reverse)
    (p := fun c => decide (c = '='))).subset h1
  exact List.mem_reverse.mp h2

/-- The full base64 stage of the decoder inverts the encoder's final steps:
URL-safe encode then `rstrip("=")`, against `strip()`, translate back, re-pad
and decode. -/
theorem decodeBase64Stage_encoded (bs : List Nat) (hb : ∀ b ∈ bs, b < 256) :
    decodeBase64Stage (stripTrailingEq ((b64EncodeChunks bs).map toUrlsafe)) = some bs := by
  have hmem := b64EncodeChunks_mem bs hb
  have hcomm := stripTrailingEq_map_toUrlsafe (b64EncodeChunks bs)
  unfold decodeBase64Stage
  rw [hcomm]
  have hmemStrip : ∀ c ∈ stripTrailingEq (b64EncodeChunks bs),
      c ∈ b64Alphabet ∨ c = '=' :=
    fun c hc => hmem c (mem_of_mem_stripTrailingEq _ c hc)
  rw [stripWs_eq_self _ (by
    intro c hc
    rcases List.mem_map.mp hc with ⟨d, hd, rfl⟩
    exact urlsafe_not_ws d (hmemStrip d hd))]
  rw [List.map_map]
  rw [show List.map (fromUrlsafe ∘ toUrlsafe) (stripTrailingEq (b64EncodeChunks bs))
      = List.map id (stripTrailingEq (b64EncodeChunks bs)) from
    List.map_congr_left (fun d hd => urlsafe_inverse d (hmemStrip d hd))]
  rw [List.map_id]
  rw [addB64Padding_stripTrailingEq bs hb]
  exact b64DecodeChunks_b64EncodeChunks bs hb

/-! ## Codec lemmas: JSON strings -/

/-- Hex digits decode to their values. -/
theorem hexDigitVal_hexDigitChar (d : Nat) (h : d < 16) :
    hexDigitVal (hexDigitChar d) = some d := by
  have hfin : ∀ m : Fin 16, hexDigitVal (hexDigitChar m.val) = some m.val := by decide
  exact hfin ⟨d, h⟩

/-- Parsing the four hex digits of a `\uXXXX` escape recovers the code
unit. -/
theorem parseHex4_hexQuad (n : Nat) (h : n < 65536) (rest : List Char) :
    parseHex4 (hexQuad n ++ rest) = some (n, rest) := by
  have e1 := hexDigitVal_hexDigitChar (n / 4096 % 16) (by omega)
  have e2 := hexDigitVal_hexDigitChar (n / 256 % 16) (by omega)
  have e3 := hexDigitVal_hexDigitChar (n / 16 % 16) (by omega)
  have e4 := hexDigitVal_hexDigitChar (n % 16) (by omega)
  have harith : ((n / 4096 % 16 * 16 + n / 256 % 16) * 16 + n / 16 % 16) * 16 + n % 16 = n := by
    omega
  simp only [hexQuad, List.cons_append, List.nil_append, parseHex4, e1, e2, e3, e4, harith]

/-- A lone `\uXXXX` escape outside the surrogate ranges parses to its code
point. -/
theorem parseUEsc_single (n : Nat) (k : List Char) (hn : n < 65536)
    (hno1 : ¬(55296 ≤ n ∧ n < 56320)) (hno2 : ¬(56320 ≤ n ∧ n < 57344)) :
    parseUEsc (hexQuad n ++ k) = some (Char.ofNat n, k) := by
  unfold parseUEsc
  rw [parseHex4_hexQuad n hn k]
  show (if 55296 ≤ n ∧ n < 56320 then parseLowSurrogate n k
      else if 56320 ≤ n ∧ n < 57344 then none else some (Char.ofNat n, k))
    = some (Char.ofNat n, k)
  rw [if_neg hno1, if_neg hno2]

/-- A surrogate-pair escape parses to the recombined astral code point. -/
theorem parseUEsc_pair (n1 n2 : Nat) (k : List Char) (h1 : n1 < 65536) (h2 : n2 < 65536)
    (hs1 : 55296 ≤ n1 ∧ n1 < 56320) (hs2 : 56320 ≤ n2 ∧ n2 < 57344) :
    parseUEsc (hexQuad n1 ++ ('\\' :: 'u' :: (hexQuad n2 ++ k)))
      = some (Char.ofNat (65536 + (n1 - 55296) * 1024 + (n2 - 56320)), k) := by
  unfold parseUEsc
  rw [parseHex4_hexQuad n1 h1]
  show (if 55296 ≤ n1 ∧ n1 < 56320 then parseLowSurrogate n1 ('\\' :: 'u' :: (hexQuad n2 ++ k))
      else if 56320 ≤ n1 ∧ n1 < 57344 then none
      else some (Char.ofNat n1, '\\' :: 'u' :: (hexQuad n2 ++ k)))
    = some (Char.ofNat (65536 + (n1 - 55296) * 1024 + (n2 - 56320)), k)
  rw [if_pos hs1]
  unfold parseLowSurrogate
  show (if ('\\' : Char) = '\\' ∧ ('u' : Char) = 'u' then
        match parseHex4 (hexQuad n2 ++ k) with
        | some (m, rest3) =>
          if 56320 ≤ m ∧ m < 57344 then
            some (Char.ofNat (65536 + (n1 - 55296) * 1024 + (m - 56320)), rest3)
          else none
        | none => none
      else none)
    = some (Char.ofNat (65536 + (n1 - 55296) * 1024 + (n2 - 56320)), k)
  rw [if_pos (show ('\\' : Char) = '\\' ∧ ('u' : Char) = 'u' from ⟨rfl, rfl⟩)]
  rw [parseHex4_hexQuad n2 h2]
  show (if 56320 ≤ n2 ∧ n2 < 57344 then
        some (Char.ofNat (65536 + (n1 - 55296) * 1024 + (n2 - 56320)), k)
      else none)
    = some (Char.ofNat (65536 + (n1 - 55296) * 1024 + (n2 - 56320)), k)
  rw [if_pos hs2]

/-- The valid scalar ranges of a `Char`'s code point. -/
theorem char_toNat_valid (c : Char) :
    c.toNat < 55296 ∨ (57343 < c.toNat ∧ c.toNat < 1114112) := c.valid

/-- `parseEsc` on a `u` marker defers to the `\uXXXX` parser. -/
theorem parseEsc_u_front (rest : List Char) : parseEsc ('u' :: rest) = parseUEsc rest := by
  simp [parseEsc]

/-- A string body step at the closing quote. -/
theorem parseJString_cons_quote (fuel : Nat) (rest : List Char) :
    parseJString (fuel + 1) ('"' :: rest) = some ([], rest) := by
  simp [parseJString]

/-- A string body step at a backslash defers to the escape parser. -/
theorem parseJString_cons_backslash (fuel : Nat) (rest : List Char) :
    parseJString (fuel + 1) ('\\' :: rest)
      = match parseEsc rest with
        | none => none
        | some (d, rest1) =>
          match parseJString fuel rest1 with
          | none => none
          | some (s, r) => some (d :: s, r) := by
  simp [parseJString]

/-- A string body step at an ordinary character keeps it. -/
theorem parseJString_cons_other (fuel : Nat) (c : Char) (rest : List Char)
    (h1 : ¬ c = '"') (h2 : ¬ c = '\\') :
    parseJString (fuel + 1) (c :: rest)
      = match parseJString fuel rest with
        | none => none
        | some (s, r) => some (c :: s, r) := by
  simp [parseJString, h1, h2]

/-- One parsing step of a string body consumes exactly the escape of one
character and yields that character back. -/
theorem parseJString_step (c : Char) (k : List Char) (fuel : Nat) :
    parseJString (fuel + 1) (escChar c ++ k)
      = match parseJString fuel k with
        | none => none
        | some (s, r) => some (c :: s, r) := by
  by_cases h1 : c = '"'
  · subst h1
    rw [show escChar '"' ++ k = '\\' :: '"' :: k from rfl, parseJString_cons_backslash]
    simp [parseEsc]
  by_cases h2 : c = '\\'
  · subst h2
    rw [show escChar '\\' ++ k = '\\' :: '\\' :: k from rfl, parseJString_cons_backslash]
    simp [parseEsc]
  by_cases h3 : c.toNat = 8
  · have hc : c = Char.ofNat 8 := by rw [← h3, Char.ofNat_toNat]
    have hesc : escChar c = ['\\', 'b'] := by simp [escChar, h1, h2, h3]
    rw [hesc, show ('\\' :: 'b' :: []) ++ k = '\\' :: 'b' :: k from rfl,
      parseJString_cons_backslash]
    simp [parseEsc, hc]
  by_cases h4 : c.toNat = 9
  · have hc : c = Char.ofNat 9 := by rw [← h4, Char.ofNat_toNat]
    have hesc : escChar c = ['\\', 't'] := by simp [escChar, h1, h2, h3, h4]
    rw [hesc, show ('\\' :: 't' :: []) ++ k = '\\' :: 't' :: k from rfl,
      parseJString_cons_backslash]
    simp [parseEsc, hc]
  by_cases h5 : c.toNat = 10
  · have hc : c = Char.ofNat 10 := by rw [← h5, Char.ofNat_toNat]
    have hesc : escChar c = ['\\', 'n'] := by simp [escChar, h1, h2, h3, h4, h5]
    rw [hesc, show ('\\' :: 'n' :: []) ++ k = '\\' :: 'n' :: k from rfl,
      parseJString_cons_backslash]
    simp [parseEsc, hc]
  by_cases h6 : c.toNat = 12
  · have hc : c = Char.ofNat 12 := by rw [← h6, Char.ofNat_toNat]
    have hesc : escChar c = ['\\', 'f'] := by simp [escChar, h1, h2, h3, h4, h5, h6]
    rw [hesc, show ('\\' :: 'f' :: []) ++ k = '\\' :: 'f' :: k from rfl,
      parseJString_cons_backslash]
    simp [parseEsc, hc]
  by_cases h7 : c.toNat = 13
  · have hc : c = Char.ofNat 13 := by rw [← h7, Char.ofNat_toNat]
    have hesc : escChar c = ['\\', 'r'] := by simp [escChar, h1, h2, h3, h4, h5, h6, h7]
    rw [hesc, show ('\\' :: 'r' :: []) ++ k = '\\' :: 'r' :: k from rfl,
      parseJString_cons_backslash]
    simp [parseEsc, hc]
  by_cases h8 : c.toNat < 32 ∨ 127 ≤ c.toNat
  · have hval := char_toNat_valid c
    have hc : Char.ofNat c.toNat = c := Char.ofNat_toNat c
    by_cases h9 : c.toNat < 65536
    · have hesc : escChar c = '\\' :: 'u' :: hexQuad c.toNat := by
        simp [escChar, h1, h2, h3, h4, h5, h6, h7, h8, h9, uescape4]
      have hs1 : ¬(55296 ≤ c.toNat ∧ c.toNat < 56320) := by omega
      have hs2 : ¬(56320 ≤ c.toNat ∧ c.toNat < 57344) := by omega
      rw [hesc, show ('\\' :: 'u' :: hexQuad c.toNat) ++ k
            = '\\' :: 'u' :: (hexQuad c.toNat ++ k) from by simp,
        parseJString_cons_backslash, parseEsc_u_front,
        parseUEsc_single c.toNat k h9 hs1 hs2, hc]
    · have hlo1 : 55296 + (c.toNat - 65536) / 1024 < 65536 := by omega
      have hlo2 : 56320 + (c.toNat - 65536) % 1024 < 65536 := by omega
      have hs1 : 55296 ≤ 55296 + (c.toNat - 65536) / 1024
          ∧ 55296 + (c.toNat - 65536) / 1024 < 56320 := by omega
      have hs2 : 56320 ≤ 56320 + (c.toNat - 65536) % 1024
          ∧ 56320 + (c.toNat - 65536) % 1024 < 57344 := by omega
      have hrec : 65536 + (55296 + (c.toNat - 65536) / 1024 - 55296) * 1024
          + (56320 + (c.toNat - 65536) % 1024 - 56320) = c.toNat := by omega
      have hesc : escChar c = uescape4 (55296 + (c.toNat - 65536) / 1024)
          ++ uescape4 (56320 + (c.toNat - 65536) % 1024) := by
        simp [escChar, h1, h2, h3, h4, h5, h6, h7, h8, h9]
      rw [hesc, show (uescape4 (55296 + (c.toNat - 65536) / 1024)
            ++ uescape4 (56320 + (c.toNat - 65536) % 1024)) ++ k
          = '\\' :: 'u' :: (hexQuad (55296 + (c.toNat - 65536) / 1024)
            ++ ('\\' :: 'u' :: (hexQuad (56320 + (c.toNat - 65536) % 1024) ++ k)))
          from by simp [uescape4],
        parseJString_cons_backslash, parseEsc_u_front,
        parseUEsc_pair _ _ k hlo1 hlo2 hs1 hs2, hrec, hc]
  · have hesc : escChar c = [c] := by simp [escChar, h1, h2, h3, h4, h5, h6, h7, h8]
    rw [hesc, show [c] ++ k = c :: k from rfl, parseJString_cons_other fuel c k h1 h2]

/-- Parsing the escaped body of a string recovers it exactly, for any fuel
beyond the character count. -/
theorem parseJString_escBody (s : List Char) :
    ∀ (fuel : Nat) (k : List Char), s.length < fuel →
      parseJString fuel (escBody s ++ ('"' :: k)) = some (s, k) := by
  induction s with
  | nil =>
      intro fuel k hf
      match fuel, hf with
      | fuel + 1, _ => exact parseJString_cons_quote fuel k
  | cons c cs ih =>
      intro fuel k hf
      match fuel, hf with
      | fuel + 1, hf =>
          rw [show escBody (c :: cs) ++ ('"' :: k)
              = escChar c ++ (escBody cs ++ ('"' :: k)) from by simp [escBody],
            parseJString_step, ih fuel k (by simpa using Nat.lt_of_succ_lt_succ hf)]

/-! ## Codec lemmas: numbers -/

/-- Decimal digit characters are digits. -/
theorem isDigitCh_digitChar (d : Nat) (h : d < 10) : isDigitCh (digitChar d) = true := by
  have hfin : ∀ m : Fin 10, isDigitCh (digitChar m.val) = true := by decide
  exact hfin ⟨d, h⟩

/-- Decimal digit characters decode to their values. -/
theorem digitVal_digitChar (d : Nat) (h : d < 10) : digitVal (digitChar d) = d := by
  have hfin : ∀ m : Fin 10, digitVal (digitChar m.val) = m.val := by decide
  exact hfin ⟨d, h⟩

/-- Digit characters are not a minus sign. -/
theorem digitChar_ne_minus (d : Nat) (h : d < 10) : digitChar d ≠ '-' := by
  have hfin : ∀ m : Fin 10, digitChar m.val ≠ '-' := by decide
  exact hfin ⟨d, h⟩

/-- Every character of an extracted digit run is a digit character. -/
theorem natDigitsAux_digits : ∀ (fuel n : Nat), ∀ c ∈ natDigitsAux fuel n, ∃ d, d < 10 ∧ c = digitChar d
  | 0, _ => by intro c hc; simp [natDigitsAux] at hc
  | fuel + 1, n => by
      intro c hc
      by_cases h0 : n = 0
      · subst h0; simp [natDigitsAux] at hc
      · rw [show natDigitsAux (fuel + 1) n = digitChar (n % 10) :: natDigitsAux fuel (n / 10) from by
            rw [natDigitsAux.eq_def]
            cases n with
            | zero => exact absurd rfl h0
            | succ m => rfl] at hc
        rcases List.mem_cons.mp hc with h | h
        · exact ⟨n % 10, by omega, h⟩
        · exact natDigitsAux_digits fuel (n / 10) c h

/-- `takeDigits` splits an all-digit run from a non-digit continuation. -/
theorem takeDigits_append : ∀ (ds rest : List Char),
    (∀ c ∈ ds, isDigitCh c = true) →
    (∀ x, rest.head? = some x → isDigitCh x = false) →
    takeDigits (ds ++ rest) = (ds, rest)
  | [], rest, _, hrest => by
      cases rest with
      | nil => rfl
      | cons x t =>
          have := hrest x rfl
          simp [takeDigits, this]
  | c :: cs, rest, hds, hrest => by
      have hc : isDigitCh c = true := hds c (by simp)
      have hrec := takeDigits_append cs rest (fun x hx => hds x (by simp [hx])) hrest
      simp [takeDigits, hc, hrec]

/-- Appending one digit multiplies the accumulated value by ten. -/
theorem natFromDigits_append_singleton (xs : List Char) (c : Char) :
    natFromDigits (xs ++ [c]) = natFromDigits xs * 10 + digitVal c := by
  unfold natFromDigits
  rw [List.foldl_append]
  rfl

/-- The digit extraction evaluates back to the number. -/
theorem natFromDigits_natDigitsAux : ∀ (fuel n : Nat), n ≤ fuel →
    natFromDigits ((natDigitsAux fuel n).reverse) = n
  | 0, n, h => by
      have h0 : n = 0 := by omega
      subst h0; rfl
  | fuel + 1, n, h => by
      by_cases h0 : n = 0
      · subst h0; rfl
      · rw [show natDigitsAux (fuel + 1) n = digitChar (n % 10) :: natDigitsAux fuel (n / 10) from by
            rw [natDigitsAux.eq_def]
            cases n with
            | zero => exact absurd rfl h0
            | succ m => rfl]
        rw [List.reverse_cons, natFromDigits_append_singleton,
          natFromDigits_natDigitsAux fuel (n / 10) (by omega),
          digitVal_digitChar (n % 10) (by omega)]
        omega

/-- The decimal rendering of a natural number is a nonempty digit run. -/
theorem serNat_digits (n : Nat) : serNat n ≠ [] ∧ ∀ c ∈ serNat n, isDigitCh c = true := by
  by_cases h0 : n = 0
  · subst h0
    exact ⟨by decide, by decide⟩
  · unfold serNat
    rw [if_neg h0]
    constructor
    · intro he
      have : natDigitsAux n n = [] := by
        have := congrArg List.reverse he
        simpa using this
      have hval := natFromDigits_natDigitsAux n n (le_refl n)
      rw [this] at hval
      exact h0 (by simpa using hval.symm)
    · intro c hc
      rcases natDigitsAux_digits n n c (List.mem_reverse.mp hc) with ⟨d, hd, rfl⟩
      exact isDigitCh_digitChar d hd

/-- The decimal rendering evaluates back to the number. -/
theorem natFromDigits_serNat (n : Nat) : natFromDigits (serNat n) = n := by
  by_cases h0 : n = 0
  · subst h0; rfl
  · unfold serNat
    rw [if_neg h0]
    exact natFromDigits_natDigitsAux n n (le_refl n)

/-- Parsing a serialized integer followed by a delimiter recovers it. -/
theorem parseNumberTok_serInt (n : Int) (rest : List Char)
    (hrest : ∀ x, rest.head? = some x →
      isDigitCh x = false ∧ x ≠ '.' ∧ x ≠ 'e' ∧ x ≠ 'E') :
    parseNumberTok (serInt n ++ rest) = some (JVal.int n, rest) := by
  have htail : ∀ (m : Nat), natFromDigits (serNat m) = m →
      parseNumTail [] (serNat m) rest = some (JVal.int (m : Int), rest) := by
    intro m hval
    cases hr : rest with
    | nil =>
        simp [parseNumTail, intOfTok, hval]
    | cons x t =>
        obtain ⟨hxd, hxdot, hxe, hxE⟩ := hrest x (by rw [hr]; rfl)
        simp [parseNumTail, intOfTok, hval, hxdot, hxe, hxE]
  have hmain : ∀ (m : Nat), parseNumberTok (serNat m ++ rest) = some (JVal.int (m : Int), rest) := by
    intro m
    obtain ⟨hne, hds⟩ := serNat_digits m
    cases hsn : serNat m with
    | nil => exact absurd hsn hne
    | cons c cs =>
        have hcd : isDigitCh c = true := by
          have := hds c (by rw [hsn]; simp)
          exact this
        have hcm : ¬ c = '-' := by
          intro he
          rw [he] at hcd
          simp [isDigitCh] at hcd
        have htake : takeDigits (serNat m ++ rest) = (serNat m, rest) :=
          takeDigits_append (serNat m) rest hds (fun x hx => (hrest x hx).1)
        rw [hsn] at htake
        have hval : natFromDigits (serNat m) = m := natFromDigits_serNat m
        rw [hsn] at hval
        unfold parseNumberTok
        simp only [hsn, List.cons_append, hcm, if_false, ite_false]
        rw [show ((c :: cs) ++ rest : List Char) = c :: (cs ++ rest) from rfl] at htake
        simp only [htake]
        have h2 := htail m (natFromDigits_serNat m)
        rw [hsn] at h2
        simpa using h2
  by_cases hneg : n < 0
  · have hser : serInt n = '-' :: serNat n.natAbs := by simp [serInt, hneg]
    rw [hser]
    obtain ⟨hne, hds⟩ := serNat_digits n.natAbs
    have htake : takeDigits (serNat n.natAbs ++ rest) = (serNat n.natAbs, rest) :=
      takeDigits_append _ rest hds (fun x hx => (hrest x hx).1)
    have hval : natFromDigits (serNat n.natAbs) = n.natAbs := natFromDigits_serNat _
    have hie : (serNat n.natAbs).isEmpty = false := by
      cases hsn : serNat n.natAbs with
      | nil => exact absurd hsn hne
      | cons c cs => rfl
    have h2 : parseNumTail ['-'] (serNat n.natAbs) rest
        = some (JVal.int n, rest) := by
      cases hr : rest with
      | nil =>
          simp [parseNumTail, intOfTok, hval]
          rw [abs_of_nonpos (by omega), neg_neg]
      | cons x t =>
          obtain ⟨hxd, hxdot, hxe, hxE⟩ := hrest x (by rw [hr]; rfl)
          simp [parseNumTail, intOfTok, hval, hxdot, hxe, hxE]
          rw [abs_of_nonpos (by omega), neg_neg]
    unfold parseNumberTok
    simp [htake, hie, h2]
  · have hser : serInt n = serNat n.toNat := by simp [serInt, hneg]
    rw [hser]
    have := hmain n.toNat
    rw [Int.toNat_of_nonneg (by omega)] at this
    exact this

/-- A digit character is none of the number punctuation characters. -/
theorem isDigitCh_excl (c : Char) (h : isDigitCh c = true) :
    c ≠ '-' ∧ c ≠ '+' ∧ c ≠ '.' ∧ c ≠ 'e' ∧ c ≠ 'E' ∧ c ≠ ']' ∧ c ≠ ',' := by
  refine ⟨?_, ?_, ?_, ?_, ?_, ?_, ?_⟩ <;> intro he <;> subst he <;> simp [isDigitCh] at h

/-- Parsing a well-formed exponent part recovers its characters. -/
theorem parseExp_expPart (e : Char) (sgn xs rest : List Char)
    (hsgn : sgn = [] ∨ sgn = ['+'] ∨ sgn = ['-'])
    (hxs : xs ≠ []) (hdx : digitsOnly xs = true)
    (hrest : ∀ x, rest.head? = some x → isDigitCh x = false) :
    parseExp e ((sgn ++ xs) ++ rest) = some (e :: (sgn ++ xs), rest) := by
  have hxsd : ∀ c ∈ xs, isDigitCh c = true := fun c hc =>
    List.all_eq_true.mp hdx c hc
  have htake : takeDigits (xs ++ rest) = (xs, rest) :=
    takeDigits_append xs rest hxsd hrest
  have hie : xs.isEmpty = false := by
    cases hxx : xs with
    | nil => exact absurd hxx hxs
    | cons c cs => rfl
  rcases hsgn with rfl | rfl | rfl
  · cases hxx : xs with
    | nil => exact absurd hxx hxs
    | cons c cs =>
        have hcd : isDigitCh c = true := hxsd c (by rw [hxx]; simp)
        obtain ⟨_, hplus, _, _, _, _, _⟩ := isDigitCh_excl c hcd
        have hminus := (isDigitCh_excl c hcd).1
        rw [hxx] at htake hie
        simp only [List.cons_append] at htake
        unfold parseExp
        simp [hplus, hminus, htake, hie]
  · unfold parseExp
    simp [htake, hie]
  · unfold parseExp
    simp [htake, hie]

/-- Parsing a well-formed float token followed by a delimiter keeps its
exact text as a `numLit`. -/
theorem parseNumberTok_floatTok (s : String) (hs : FloatTok s) (rest : List Char)
    (hrest : ∀ x, rest.head? = some x →
      isDigitCh x = false ∧ x ≠ '.' ∧ x ≠ 'e' ∧ x ≠ 'E') :
    parseNumberTok (s.data ++ rest) = some (JVal.numLit s, rest) := by
  have hrestd : ∀ x, rest.head? = some x → isDigitCh x = false := fun x hx => (hrest x hx).1
  rcases hs with ⟨neg, ds, fs, ex, hsgn, hds_ne, hds_dig, hfs_ne, hfs_dig, hex, hdata⟩
    | ⟨neg, ds, ex, hsgn, hds_ne, hds_dig, hex, hdata⟩
  · -- fractional shape
    have hdsd : ∀ c ∈ ds, isDigitCh c = true := fun c hc => List.all_eq_true.mp hds_dig c hc
    have hfsd : ∀ c ∈ fs, isDigitCh c = true := fun c hc => List.all_eq_true.mp hfs_dig c hc
    have hds_ie : ds.isEmpty = false := by
      cases hdd : ds with
      | nil => exact absurd hdd hds_ne
      | cons c cs => rfl
    have hfs_ie : fs.isEmpty = false := by
      cases hff : fs with
      | nil => exact absurd hff hfs_ne
      | cons c cs => rfl
    -- the tail after the integer digits, in simp-normal form
    have htail : parseNumTail neg ds ('.' :: (fs ++ (ex ++ rest)))
        = some (JVal.numLit s, rest) := by
      rcases hex with rfl | ⟨e, sgn2, xs, he, hsgn2, hxs, hdx, rfl⟩
      · have htake2 : takeDigits (fs ++ rest) = (fs, rest) :=
          takeDigits_append fs rest hfsd hrestd
        cases hr : rest with
        | nil =>
            subst hr
            simp only [List.append_nil] at htake2 ⊢
            simp [parseNumTail, htake2, hfs_ie]
            rw [show s = String.mk s.data from rfl, hdata]
            simp
        | cons x t =>
            obtain ⟨hxd, hxdot, hxe, hxE⟩ := hrest x (by rw [hr]; rfl)
            subst hr
            simp only [List.append_nil] at htake2 ⊢
            simp [parseNumTail, htake2, hfs_ie, hxe, hxE]
            rw [show s = String.mk s.data from rfl, hdata]
            simp
      · have hend : ∀ x, ((e :: (sgn2 ++ xs)) ++ rest).head? = some x → isDigitCh x = false := by
          intro x hx
          simp at hx
          rw [← hx]
          rcases he with rfl | rfl <;> decide
        have htake2 : takeDigits (fs ++ ((e :: (sgn2 ++ xs)) ++ rest)) =
            (fs, (e :: (sgn2 ++ xs)) ++ rest) :=
          takeDigits_append fs _ hfsd hend
        have hpe : parseExp e ((sgn2 ++ xs) ++ rest) = some (e :: (sgn2 ++ xs), rest) :=
          parseExp_expPart e sgn2 xs rest hsgn2 hxs hdx hrestd
        simp only [List.cons_append, List.append_assoc] at htake2 hpe ⊢
        rcases he with rfl | rfl
        · simp [parseNumTail, htake2, hfs_ie, hpe]
          rw [show s = String.mk s.data from rfl, hdata]
          simp
        · simp [parseNumTail, htake2, hfs_ie, hpe]
          rw [show s = String.mk s.data from rfl, hdata]
          simp
    -- now the sign and integer-digit steps
    have htake1 : takeDigits (ds ++ ('.' :: (fs ++ (ex ++ rest)))) = (ds, '.' :: (fs ++ (ex ++ rest))) :=
      takeDigits_append ds _ hdsd (by intro x hx; simp at hx; rw [← hx]; decide)
    rw [hdata]
    rcases hsgn with rfl | rfl
    · simp only [List.nil_append, List.cons_append, List.append_assoc]
      cases hdd : ds with
      | nil => exact absurd hdd hds_ne
      | cons c cs =>
          have hcd : isDigitCh c = true := hdsd c (by rw [hdd]; simp)
          have hcm : ¬ c = '-' := (isDigitCh_excl c hcd).1
          rw [hdd] at htake1 hds_ie htail
          simp only [List.cons_append, List.append_assoc] at htake1 htail ⊢
          unfold parseNumberTok
          simp [hcm, htake1, hds_ie, htail]
    · simp only [List.cons_append, List.append_assoc]
      simp only [List.cons_append, List.append_assoc] at htake1
      unfold parseNumberTok
      simp [htake1, hds_ie, htail]
  · -- exponent-only shape
    rcases hex with ⟨e, sgn2, xs, he, hsgn2, hxs, hdx, rfl⟩
    have hdsd : ∀ c ∈ ds, isDigitCh c = true := fun c hc => List.all_eq_true.mp hds_dig c hc
    have hds_ie : ds.isEmpty = false := by
      cases hdd : ds with
      | nil => exact absurd hdd hds_ne
      | cons c cs => rfl
    have hpe : parseExp e ((sgn2 ++ xs) ++ rest) = some (e :: (sgn2 ++ xs), rest) :=
      parseExp_expPart e sgn2 xs rest hsgn2 hxs hdx hrestd
    have hedot : ¬ e = '.' := by rcases he with rfl | rfl <;> decide
    have htail : parseNumTail neg ds ((e :: (sgn2 ++ xs)) ++ rest)
        = some (JVal.numLit s, rest) := by
      simp only [List.cons_append, List.append_assoc] at hpe ⊢
      rcases he with rfl | rfl
      · simp [parseNumTail, hpe, hedot]
        rw [show s = String.mk s.data from rfl, hdata]
        simp
      · simp [parseNumTail, hpe, hedot]
        rw [show s = String.mk s.data from rfl, hdata]
        simp
    have htake1 : takeDigits (ds ++ ((e :: (sgn2 ++ xs)) ++ rest))
        = (ds, (e :: (sgn2 ++ xs)) ++ rest) :=
      takeDigits_append ds _ hdsd (by
        intro x hx
        simp at hx
        rw [← hx]
        rcases he with rfl | rfl <;> decide)
    rw [hdata]
    rcases hsgn with rfl | rfl
    · simp only [List.nil_append, List.cons_append, List.append_assoc]
      cases hdd : ds with
      | nil => exact absurd hdd hds_ne
      | cons c cs =>
          have hcd : isDigitCh c = true := hdsd c (by rw [hdd]; simp)
          have hcm : ¬ c = '-' := (isDigitCh_excl c hcd).1
          rw [hdd] at htake1 hds_ie htail
          simp only [List.cons_append, List.append_assoc] at htake1 htail ⊢
          unfold parseNumberTok
          simp [hcm, htake1, hds_ie, htail]
    · simp only [List.cons_append, List.append_assoc]
      simp only [List.cons_append, List.append_assoc] at htake1 htail
      unfold parseNumberTok
      simp [htake1, hds_ie, htail]
/-! ## Codec lemmas: values, arrays, objects -/

/-- A digit character is not a structural character of the value grammar. -/
theorem isDigitCh_excl2 (c : Char) (h : isDigitCh c = true) :
    c ≠ '"' ∧ c ≠ '[' ∧ c ≠ 't' ∧ c ≠ 'f' ∧ c ≠ 'n' ∧ c ≠ '}' := by
  refine ⟨?_, ?_, ?_, ?_, ?_, ?_⟩ <;> intro he <;> subst he <;> simp [isDigitCh] at h

/-- Every character escape is nonempty. -/
theorem escChar_ne_nil (c : Char) : escChar c ≠ [] := by
  unfold escChar
  split
  · simp
  split
  · simp
  split
  · simp
  split
  · simp
  split
  · simp
  split
  · simp
  split
  · simp
  split
  · split
    · simp [uescape4]
    · simp [uescape4]
  · simp

/-- Escaping cannot shrink a string. -/
theorem escBody_length_ge : ∀ s : List Char, s.length ≤ (escBody s).length
  | [] => le_refl 0
  | c :: cs => by
      have h1 : 1 ≤ (escChar c).length := by
        cases he : escChar c with
        | nil => exact absurd he (escChar_ne_nil c)
        | cons a as => simp
      have h2 := escBody_length_ge cs
      simp only [escBody, List.length_append, List.length_cons]
      omega

/-- A serialized integer is nonempty and starts with a digit or a minus. -/
theorem serInt_head (n : Int) : ∃ c t, serInt n = c :: t ∧ (isDigitCh c = true ∨ c = '-') := by
  by_cases hneg : n < 0
  · exact ⟨'-', serNat n.natAbs, by simp [serInt, hneg], Or.inr rfl⟩
  · obtain ⟨hne, hds⟩ := serNat_digits n.toNat
    cases hsn : serNat n.toNat with
    | nil => exact absurd hsn hne
    | cons c cs =>
        refine ⟨c, cs, by simp [serInt, hneg, hsn], Or.inl (hds c (by rw [hsn]; simp))⟩

/-- A serialized integer list is at least as long as the list. -/
theorem serIntList_length_ge : ∀ ns : List Int, ns.length ≤ (serIntList ns).length
  | [] => le_refl 0
  | [n] => by
      obtain ⟨c, t, he, _⟩ := serInt_head n
      simp [serIntList, he]
  | n :: m :: rest => by
      obtain ⟨c, t, he, _⟩ := serInt_head n
      have h2 := serIntList_length_ge (m :: rest)
      simp only [serIntList, he, List.length_append, List.length_cons]
      simp at h2 ⊢
      omega

/-- Parsing serialized integer array elements recovers them, for any fuel
beyond the element count. -/
theorem parseIntElems_serIntList : ∀ (fuel : Nat) (ns : List Int) (k : List Char),
    ns ≠ [] → ns.length ≤ fuel →
    parseIntElems fuel (serIntList ns ++ (']' :: k)) = some (ns, k)
  | fuel, [], k, hne, _ => absurd rfl hne
  | fuel + 1, [n], k, _, _ => by
      have hnum := parseNumberTok_serInt n (']' :: k) (by
        intro x hx
        simp at hx
        rw [← hx]
        decide)
      simp only [serIntList]
      unfold parseIntElems
      simp [hnum]
  | fuel + 1, n :: m :: rest, k, _, hlen => by
      have hnum := parseNumberTok_serInt n (',' :: (serIntList (m :: rest) ++ (']' :: k))) (by
        intro x hx
        simp at hx
        rw [← hx]
        decide)
      have hrec := parseIntElems_serIntList fuel (m :: rest) k (by simp) (by
        simp at hlen ⊢
        omega)
      rw [show serIntList (n :: m :: rest) ++ (']' :: k)
          = serInt n ++ (',' :: (serIntList (m :: rest) ++ (']' :: k))) from by
        simp [serIntList]]
      unfold parseIntElems
      simp [hnum, hrec]

/-- A well-formed float token starts with a digit or a minus. -/
theorem floatTok_head (s : String) (hs : FloatTok s) :
    ∃ c t, s.data = c :: t ∧ (isDigitCh c = true ∨ c = '-') := by
  rcases hs with ⟨neg, ds, fs, ex, hsgn, hds_ne, hds_dig, _, _, _, hdata⟩
    | ⟨neg, ds, ex, hsgn, hds_ne, hds_dig, _, hdata⟩ <;>
  · rcases hsgn with rfl | rfl
    · cases hdd : ds with
      | nil => exact absurd hdd hds_ne
      | cons c cs =>
          rw [hdd] at hdata
          exact ⟨c, _, by simpa using hdata,
            Or.inl (List.all_eq_true.mp hds_dig c (by rw [hdd]; simp))⟩
    · exact ⟨'-', _, by simpa using hdata, Or.inr rfl⟩

/-- Parsing a serialized value followed by a delimiter recovers it. -/
theorem parseJVal_serVal (v : JVal) (hv : JValValid v) (k : List Char)
    (hk : ∀ x, k.head? = some x →
      isDigitCh x = false ∧ x ≠ '.' ∧ x ≠ 'e' ∧ x ≠ 'E') :
    parseJVal (serVal v ++ k) = some (v, k) := by
  cases v with
  | str s =>
      have hfuel : s.data.length < (escBody s.data ++ ('"' :: k)).length + 1 := by
        have := escBody_length_ge s.data
        simp only [List.length_append, List.length_cons]
        omega
      have hps := parseJString_escBody s.data ((escBody s.data ++ ('"' :: k)).length + 1) k hfuel
      simp only [List.length_append, List.length_cons] at hps
      rw [show serVal (JVal.str s) ++ k = '"' :: (escBody s.data ++ ('"' :: k)) from by
        simp [serVal, serStr]]
      unfold parseJVal
      simp [hps]
  | int n =>
      obtain ⟨c, t, he, hc⟩ := serInt_head n
      have hnum := parseNumberTok_serInt n k hk
      have hcons : ¬ c = '"' ∧ ¬ c = '[' ∧ ¬ c = 't' ∧ ¬ c = 'f' ∧ ¬ c = 'n' := by
        rcases hc with hc | rfl
        · obtain ⟨h1, h2, h3, h4, h5, _⟩ := isDigitCh_excl2 c hc
          exact ⟨h1, h2, h3, h4, h5⟩
        · refine ⟨by decide, by decide, by decide, by decide, by decide⟩
      rw [he] at hnum
      rw [show serVal (JVal.int n) ++ k = c :: (t ++ k) from by
        rw [show serVal (JVal.int n) = serInt n from rfl, he]
        simp]
      unfold parseJVal
      simp [hcons.1, hcons.2.1, hcons.2.2.1, hcons.2.2.2.1, hcons.2.2.2.2]
      simpa using hnum
  | numLit s =>
      obtain ⟨c, t, he, hc⟩ := floatTok_head s hv
      have hnum := parseNumberTok_floatTok s hv k hk
      have hcons : ¬ c = '"' ∧ ¬ c = '[' ∧ ¬ c = 't' ∧ ¬ c = 'f' ∧ ¬ c = 'n' := by
        rcases hc with hc | rfl
        · obtain ⟨h1, h2, h3, h4, h5, _⟩ := isDigitCh_excl2 c hc
          exact ⟨h1, h2, h3, h4, h5⟩
        · refine ⟨by decide, by decide, by decide, by decide, by decide⟩
      rw [he] at hnum
      rw [show serVal (JVal.numLit s) ++ k = c :: (t ++ k) from by
        rw [show serVal (JVal.numLit s) = s.data from rfl, he]
        simp]
      unfold parseJVal
      simp [hcons.1, hcons.2.1, hcons.2.2.1, hcons.2.2.2.1, hcons.2.2.2.2]
      simpa using hnum
  | bool b =>
      cases b <;>
      · unfold parseJVal
        simp [serVal]
  | null =>
      unfold parseJVal
      simp [serVal]
  | arr ns =>
      cases hns : ns with
      | nil =>
          rw [show serVal (JVal.arr []) ++ k = '[' :: (']' :: k) from rfl]
          unfold parseJVal
          simp [parseIntArray]
      | cons n rest =>
          obtain ⟨c, t, he, hc⟩ := serInt_head n
          have hcne : ¬ c = ']' := by
            rcases hc with hc | rfl
            · intro heq
              subst heq
              simp [isDigitCh] at hc
            · decide
          have hshape : ∃ u, serIntList (n :: rest) = c :: u := by
            cases rest with
            | nil => exact ⟨t, by simp [serIntList, he]⟩
            | cons m ms =>
                exact ⟨t ++ (',' :: serIntList (m :: ms)), by simp [serIntList, he]⟩
          obtain ⟨u, hu⟩ := hshape
          have helems := parseIntElems_serIntList
            ((serIntList (n :: rest) ++ (']' :: k)).length + 1) (n :: rest) k (by simp)
            (by
              have := serIntList_length_ge (n :: rest)
              simp only [List.length_append, List.length_cons]
              simp at this ⊢
              omega)
          have hcL : serIntList (n :: rest) ++ (']' :: k) = c :: (u ++ (']' :: k)) := by
            rw [hu]
            simp
          rw [hcL] at helems
          simp only [List.length_cons, List.length_append] at helems
          rw [show serVal (JVal.arr (n :: rest)) ++ k = '[' :: (c :: (u ++ (']' :: k))) from by
            simp [serVal, hu]]
          unfold parseJVal
          simp [parseIntArray, hcne, helems]

/-- Parsing serialized members recovers the payload, for any fuel beyond
the member count. -/
theorem parseMembers_serMembers : ∀ (fuel : Nat) (p : SyncPayload) (k : List Char),
    p ≠ [] → (∀ kv ∈ p, JValValid kv.2) → p.length ≤ fuel →
    parseMembers fuel (serMembers p ++ ('}' :: k)) = some (p, k)
  | _, [], _, hne, _, _ => absurd rfl hne
  | fuel + 1, [(key, v)], k, _, hvals, _ => by
      have hv : JValValid v := hvals (key, v) (by simp)
      have hfuel : key.data.length
          < (escBody key.data ++ ('"' :: (':' :: (serVal v ++ ('}' :: k))))).length + 1 := by
        have := escBody_length_ge key.data
        simp only [List.length_append, List.length_cons]
        omega
      have hps := parseJString_escBody key.data
        ((escBody key.data ++ ('"' :: (':' :: (serVal v ++ ('}' :: k))))).length + 1)
        (':' :: (serVal v ++ ('}' :: k))) hfuel
      simp only [List.length_append, List.length_cons] at hps
      have hpv := parseJVal_serVal v hv ('}' :: k) (by
        intro x hx
        simp at hx
        rw [← hx]
        refine ⟨by decide, by decide, by decide, by decide⟩)
      rw [show serMembers [(key, v)] ++ ('}' :: k)
          = '"' :: (escBody key.data ++ ('"' :: (':' :: (serVal v ++ ('}' :: k))))) from by
        simp [serMembers, serStr]]
      unfold parseMembers
      simp [hps, hpv]
  | fuel + 1, (key, v) :: q :: ps, k, _, hvals, hlen => by
      have hv : JValValid v := hvals (key, v) (by simp)
      have hvals2 : ∀ kv ∈ q :: ps, JValValid kv.2 := fun kv hkv => hvals kv (by simp [hkv])
      have hrec := parseMembers_serMembers fuel (q :: ps) k (by simp) hvals2 (by
        simp at hlen ⊢
        omega)
      have hfuel : key.data.length
          < (escBody key.data ++ ('"' :: (':' :: (serVal v
              ++ (',' :: (serMembers (q :: ps) ++ ('}' :: k))))))).length + 1 := by
        have := escBody_length_ge key.data
        simp only [List.length_append, List.length_cons]
        omega
      have hps := parseJString_escBody key.data
        ((escBody key.data ++ ('"' :: (':' :: (serVal v
            ++ (',' :: (serMembers (q :: ps) ++ ('}' :: k))))))).length + 1)
        (':' :: (serVal v ++ (',' :: (serMembers (q :: ps) ++ ('}' :: k))))) hfuel
      simp only [List.length_append, List.length_cons] at hps
      have hpv := parseJVal_serVal v hv
        (',' :: (serMembers (q :: ps) ++ ('}' :: k))) (by
        intro x hx
        simp at hx
        rw [← hx]
        refine ⟨by decide, by decide, by decide, by decide⟩)
      rw [show serMembers ((key, v) :: q :: ps) ++ ('}' :: k)
          = '"' :: (escBody key.data ++ ('"' :: (':' :: (serVal v
              ++ (',' :: (serMembers (q :: ps) ++ ('}' :: k))))))) from by
        simp [serMembers, serStr]]
      unfold parseMembers
      simp [hps, hpv, hrec]

/-- Serialized members are at least as many characters as members. -/
theorem serMembers_length_ge : ∀ p : SyncPayload, p.length ≤ (serMembers p).length
  | [] => le_refl 0
  | [(key, v)] => by simp [serMembers, serStr]
  | (key, v) :: q :: ps => by
      have h2 := serMembers_length_ge (q :: ps)
      simp only [serMembers, serStr, List.length_append, List.length_cons]
      simp at h2 ⊢
      omega

theorem parseSyncJson_serObject (p : SyncPayload)
    (hvals : ∀ kv ∈ p, JValValid kv.2) :
    parseSyncJson (serObject p) = some p := by
  cases p with
  | nil => rfl
  | cons kv rest =>
      obtain ⟨key, v⟩ := kv
      have hshape : ∃ u, serMembers ((key, v) :: rest) = '"' :: u := by
        cases rest with
        | nil => exact ⟨escBody key.data ++ ('"' :: (':' :: serVal v)), by
            simp [serMembers, serStr]⟩
        | cons q ps => exact ⟨escBody key.data ++ ('"' :: (':' :: (serVal v
            ++ (',' :: serMembers (q :: ps))))), by simp [serMembers, serStr]⟩
      obtain ⟨u, hu⟩ := hshape
      have hm := parseMembers_serMembers
        ((serMembers ((key, v) :: rest) ++ ('}' :: [])).length + 1)
        ((key, v) :: rest) [] (by simp) hvals (by
          have := serMembers_length_ge ((key, v) :: rest)
          simp only [List.length_append, List.length_cons]
          simp at this ⊢
          omega)
      have hcL : serMembers ((key, v) :: rest) ++ ('}' :: []) = '"' :: (u ++ ('}' :: [])) := by
        rw [hu]
        simp
      rw [hcL] at hm
      simp only [List.length_cons, List.length_append, List.length_nil] at hm
      rw [show serObject ((key, v) :: rest) = '{' :: ('"' :: (u ++ ('}' :: []))) from by
        simp [serObject, hu]]
      unfold parseSyncJson parseJObject
      simp [hm]
/-! ## Codec lemmas: the serialized text is ASCII, and UTF-8 is the
identity on it -/

/-- Hex digit characters are ASCII. -/
theorem hexDigitChar_ascii (d : Nat) (h : d < 16) : (hexDigitChar d).toNat < 128 := by
  have hfin : ∀ m : Fin 16, (hexDigitChar m.val).toNat < 128 := by decide
  exact hfin ⟨d, h⟩

/-- Digits are ASCII. -/
theorem isDigitCh_ascii (c : Char) (h : isDigitCh c = true) : c.toNat < 128 := by
  simp [isDigitCh] at h
  omega

/-- Escapes emit only ASCII characters (`ensure_ascii=True`). -/
theorem escChar_ascii (c : Char) : ∀ x ∈ escChar c, x.toNat < 128 := by
  intro x hx
  unfold escChar at hx
  split at hx
  · simp at hx; rcases hx with rfl | rfl <;> decide
  split at hx
  · simp at hx; rcases hx with rfl | rfl <;> decide
  split at hx
  · simp at hx; rcases hx with rfl | rfl <;> decide
  split at hx
  · simp at hx; rcases hx with rfl | rfl <;> decide
  split at hx
  · simp at hx; rcases hx with rfl | rfl <;> decide
  split at hx
  · simp at hx; rcases hx with rfl | rfl <;> decide
  split at hx
  · simp at hx; rcases hx with rfl | rfl <;> decide
  split at hx
  · have huesc : ∀ (n : Nat), ∀ y ∈ uescape4 n, y.toNat < 128 := by
      intro n y hy
      simp only [uescape4, hexQuad, List.mem_cons, List.mem_singleton] at hy
      rcases hy with rfl | rfl | rfl | rfl | rfl | rfl | hy
      · decide
      · decide
      · exact hexDigitChar_ascii _ (by omega)
      · exact hexDigitChar_ascii _ (by omega)
      · exact hexDigitChar_ascii _ (by omega)
      · exact hexDigitChar_ascii _ (by omega)
      · simp at hy
    split at hx
    · exact huesc _ x hx
    · rcases List.mem_append.mp hx with hx | hx
      · exact huesc _ x hx
      · exact huesc _ x hx
  · rename_i h1 h2 h3 h4 h5 h6 h7 h8
    rcases List.mem_singleton.mp hx with rfl
    omega

/-- Escaped string bodies are ASCII. -/
theorem escBody_ascii : ∀ s : List Char, ∀ x ∈ escBody s, x.toNat < 128
  | [], x, hx => by simp [escBody] at hx
  | c :: cs, x, hx => by
      simp only [escBody] at hx
      rcases List.mem_append.mp hx with hx | hx
      · exact escChar_ascii c x hx
      · exact escBody_ascii cs x hx

/-- Serialized strings are ASCII. -/
theorem serStr_ascii (s : String) : ∀ x ∈ serStr s, x.toNat < 128 := by
  intro x hx
  simp only [serStr, List.mem_cons, List.mem_append, List.mem_singleton,
    List.not_mem_nil, or_false] at hx
  rcases hx with rfl | hx | rfl
  · decide
  · exact escBody_ascii s.data x hx
  · decide

/-- Serialized naturals are ASCII. -/
theorem serNat_ascii (n : Nat) : ∀ x ∈ serNat n, x.toNat < 128 := by
  intro x hx
  exact isDigitCh_ascii x ((serNat_digits n).2 x hx)

/-- Serialized integers are ASCII. -/
theorem serInt_ascii (n : Int) : ∀ x ∈ serInt n, x.toNat < 128 := by
  intro x hx
  unfold serInt at hx
  split at hx
  · rcases List.mem_cons.mp hx with rfl | hx
    · decide
    · exact serNat_ascii _ x hx
  · exact serNat_ascii _ x hx

/-- Serialized integer lists are ASCII. -/
theorem serIntList_ascii : ∀ ns : List Int, ∀ x ∈ serIntList ns, x.toNat < 128
  | [], x, hx => by simp [serIntList] at hx
  | [n], x, hx => serInt_ascii n x hx
  | n :: m :: rest, x, hx => by
      simp only [serIntList, List.mem_append, List.mem_cons] at hx
      rcases hx with hx | rfl | hx
      · exact serInt_ascii n x hx
      · decide
      · exact serIntList_ascii (m :: rest) x hx

/-- Well-formed float tokens are ASCII. -/
theorem floatTok_ascii (s : String) (hs : FloatTok s) : ∀ x ∈ s.data, x.toNat < 128 := by
  have hsgntok : ∀ (l : List Char), (l = [] ∨ l = ['+'] ∨ l = ['-']) →
      ∀ x ∈ l, x.toNat < 128 := by
    rintro l (rfl | rfl | rfl) x hx <;> simp at hx <;> subst hx <;> decide
  have hdig : ∀ (l : List Char), digitsOnly l = true → ∀ x ∈ l, x.toNat < 128 := by
    intro l hl x hx
    exact isDigitCh_ascii x (List.all_eq_true.mp hl x hx)
  have hexpart : ∀ (l : List Char), ExpPart l → ∀ x ∈ l, x.toNat < 128 := by
    rintro l ⟨e, sgn, xs, he, hsgn, _, hdx, rfl⟩ x hx
    rcases List.mem_cons.mp hx with rfl | hx
    · rcases he with rfl | rfl <;> decide
    · rcases List.mem_append.mp hx with hx | hx
      · exact hsgntok sgn (by tauto) x hx
      · exact hdig xs hdx x hx
  rcases hs with ⟨neg, ds, fs, ex, hsgn, _, hds_dig, _, hfs_dig, hex, hdata⟩
    | ⟨neg, ds, ex, hsgn, _, hds_dig, hex, hdata⟩
  · intro x hx
    rw [hdata] at hx
    simp only [List.mem_append, List.mem_cons] at hx
    rcases hx with (hx | hx) | rfl | hx
    · exact hsgntok neg (Or.imp id Or.inr hsgn) x hx
    · exact hdig ds hds_dig x hx
    · decide
    · rcases hx with hx | hx
      · exact hdig fs hfs_dig x hx
      · rcases hex with rfl | hex
        · simp at hx
        · exact hexpart ex hex x hx
  · intro x hx
    rw [hdata] at hx
    simp only [List.mem_append] at hx
    rcases hx with (hx | hx) | hx
    · exact hsgntok neg (Or.imp id Or.inr hsgn) x hx
    · exact hdig ds hds_dig x hx
    · exact hexpart ex hex x hx

/-- Serialized values are ASCII. -/
theorem serVal_ascii (v : JVal) (hv : JValValid v) : ∀ x ∈ serVal v, x.toNat < 128 := by
  cases v with
  | str s => exact serStr_ascii s
  | int n => exact serInt_ascii n
  | numLit s => exact floatTok_ascii s hv
  | bool b => cases b <;> decide
  | null => decide
  | arr ns =>
      intro x hx
      simp only [serVal, List.mem_cons, List.mem_append, List.mem_singleton,
        List.not_mem_nil, or_false] at hx
      rcases hx with rfl | hx | rfl
      · decide
      · exact serIntList_ascii ns x hx
      · decide

/-- Serialized members are ASCII. -/
theorem serMembers_ascii : ∀ p : SyncPayload, (∀ kv ∈ p, JValValid kv.2) →
    ∀ x ∈ serMembers p, x.toNat < 128
  | [], _, x, hx => by simp [serMembers] at hx
  | [(key, v)], hvals, x, hx => by
      have h1 := serStr_ascii key x
      have h2 := serVal_ascii v (hvals (key, v) (by simp)) x
      simp only [serMembers] at hx
      simp at hx
      rcases hx with hx | hx | hx
      all_goals first
        | exact h1 hx
        | exact h2 hx
        | (subst hx; decide)
  | (key, v) :: q :: ps, hvals, x, hx => by
      have h1 := serStr_ascii key x
      have h2 := serVal_ascii v (hvals (key, v) (by simp)) x
      have h3 := serMembers_ascii (q :: ps) (fun kv hkv => hvals kv (by simp [hkv])) x
      simp only [serMembers] at hx
      simp at hx
      rcases hx with hx | hx | hx | hx | hx
      all_goals first
        | exact h1 hx
        | exact h2 hx
        | exact h3 hx
        | (subst hx; decide)

/-- The serialized payload object is pure ASCII. -/
theorem serObject_ascii (p : SyncPayload) (hvals : ∀ kv ∈ p, JValValid kv.2) :
    ∀ x ∈ serObject p, x.toNat < 128 := by
  intro x hx
  simp only [serObject, List.mem_cons, List.mem_append, List.mem_singleton,
    List.not_mem_nil, or_false] at hx
  rcases hx with rfl | hx | rfl
  · decide
  · exact serMembers_ascii p hvals x hx
  · decide

/-- UTF-8 encoding of ASCII text is one byte per character. -/
theorem utf8Encode_ascii_length : ∀ s : List Char, (∀ c ∈ s, c.toNat < 128) →
    (utf8Encode s).length = s.length
  | [], _ => rfl
  | c :: cs, h => by
      have hc : c.toNat < 128 := h c (by simp)
      have hrec := utf8Encode_ascii_length cs (fun x hx => h x (by simp [hx]))
      simp only [utf8Encode, utf8EncodeChar, hc, if_pos, List.length_append, List.length_cons]
      simp [hrec]
      omega

/-- UTF-8 decoding inverts UTF-8 encoding on ASCII text. -/
theorem utf8DecodeAux_utf8Encode_ascii : ∀ (fuel : Nat) (s : List Char),
    (∀ c ∈ s, c.toNat < 128) → s.length ≤ fuel →
    utf8DecodeAux fuel (utf8Encode s) = some s
  | fuel, [], _, _ => by cases fuel <;> rfl
  | fuel + 1, c :: cs, h, hlen => by
      have hc : c.toNat < 128 := h c (by simp)
      have hrec := utf8DecodeAux_utf8Encode_ascii fuel cs
        (fun x hx => h x (by simp [hx])) (by simp at hlen; omega)
      rw [show utf8Encode (c :: cs) = c.toNat :: utf8Encode cs from by
        simp [utf8Encode, utf8EncodeChar, hc]]
      unfold utf8DecodeAux
      simp [hc, hrec, Char.ofNat_toNat]
  | 0, c :: cs, h, hlen => by simp at hlen

/-- UTF-8 decode of the UTF-8 encoding of ASCII text is the text. -/
theorem utf8Decode_utf8Encode_ascii (s : List Char) (h : ∀ c ∈ s, c.toNat < 128) :
    utf8Decode (utf8Encode s) = some s := by
  unfold utf8Decode
  exact utf8DecodeAux_utf8Encode_ascii _ s h (by rw [utf8Encode_ascii_length s h])

/-! ## Codec lemmas: the assembled pipeline -/

/-- Core round trip: decoding the base64 form of a zero-padded compressed
stream recovers the payload, provided the stream itself does not end in a
zero byte. -/
theorem roundtrip_core (decompress : List Nat → Option (List Nat))
    (p : SyncPayload) (hvals : ∀ kv ∈ p, JValValid kv.2) (comp : List Nat)
    (hinv : decompress comp = some (utf8Encode (serObject p)))
    (hb : ∀ b ∈ comp, b < 256) (z : Nat) (hz : comp.getLast? = some z)
    (hzne : z ≠ 0) (k : Nat) :
    decodeSyncPayload decompress
      (stripTrailingEq ((b64EncodeChunks (comp ++ List.replicate k 0)).map toUrlsafe))
      = some p := by
  have hb2 : ∀ b ∈ comp ++ List.replicate k 0, b < 256 := by
    intro b hbm
    rcases List.mem_append.mp hbm with h | h
    · exact hb b h
    · rcases List.mem_replicate.mp h with ⟨_, rfl⟩; omega
  have hdec := decodeBase64Stage_encoded (comp ++ List.replicate k 0) hb2
  unfold decodeSyncPayload
  rw [hdec]
  simp only [Option.some_bind]
  rw [stripTrailingZeros_pad comp k z hz hzne, hinv]
  simp only [Option.some_bind]
  rw [utf8Decode_utf8Encode_ascii (serObject p) (serObject_ascii p hvals)]
  simp only [Option.some_bind]
  exact parseSyncJson_serObject p hvals

/-- The values of `examplePayload` are well-formed. -/
theorem examplePayload_valid : ∀ kv ∈ examplePayload, JValValid kv.2 := by
  intro kv hkv
  simp only [examplePayload, List.mem_cons, List.not_mem_nil, or_false] at hkv
  rcases hkv with rfl | rfl
  · trivial
  · show FloatTok "25.5"
    exact Or.inl ⟨[], ['2', '5'], ['5'], [], Or.inl rfl, by decide, by decide,
      by decide, by decide, Or.inl rfl, by decide⟩

/-- C1 (counterexample): a compressor/decompressor pair satisfying the
inversion contract `decompress (compress b) = some b` whose compressed
stream ends in a zero byte — the full zlib format permits this, since the
stream ends in the Adler-32 checksum, whose final byte can be `0x00`. The
decoder's `rstrip(b"\x00")` then also strips the stream's own trailing
byte, decompression fails, and `decode(encode(p, n))` returns nothing
instead of `p` — with padding configured and without. -/
theorem decode_encode_roundtrip_fails_on_zero_tail :
    zeroTailDecompress (zeroTailCompress (utf8Encode (serObject examplePayload)))
      = some (utf8Encode (serObject examplePayload))
    ∧ decodeSyncPayload zeroTailDecompress
        (encodePayload zeroTailCompress ⟨64, true⟩ examplePayload) = none
    ∧ decodeSyncPayload zeroTailDecompress
        (encodePayload zeroTailCompress ⟨0, false⟩ examplePayload) = none := by
  exact ⟨by decide, by decide, by decide⟩

/-- C1 (amended): for every valid payload and every compression
configuration, `decode(encode(p, n)) = p` holds for a zlib collaborator
satisfying the inversion contract on the produced stream — provided the
compressed stream is nonempty and does not end in a zero byte; the
decoder's `rstrip(b"\x00")` makes the round trip fail on streams ending in
`0x00`. -/
theorem sync_payload_roundtrip (compress : List Nat → List Nat)
    (decompress : List Nat → Option (List Nat)) (cfg : CompressionConfig)
    (p : SyncPayload) (hvals : ∀ kv ∈ p, JValValid kv.2)
    (hinv : decompress (compress (utf8Encode (serObject p)))
        = some (utf8Encode (serObject p)))
    (hbytes : ∀ b ∈ compress (utf8Encode (serObject p)), b < 256)
    (hne : compress (utf8Encode (serObject p)) ≠ [])
    (hzero : (compress (utf8Encode (serObject p))).getLast? ≠ some 0) :
    decodeSyncPayload decompress (encodePayload compress cfg p) = some p := by
  obtain ⟨z, hz⟩ : ∃ z, (compress (utf8Encode (serObject p))).getLast? = some z := by
    cases hr : (compress (utf8Encode (serObject p))).reverse with
    | nil => exact absurd (List.reverse_eq_nil_iff.mp hr) hne
    | cons w ws => exact ⟨w, by rw [← List.head?_reverse, hr]; rfl⟩
  have hzne : z ≠ 0 := by rintro rfl; exact hzero hz
  simp only [encodePayload]
  split
  · exact roundtrip_core decompress p hvals _ hinv hbytes z hz hzne _
  · simpa using roundtrip_core decompress p hvals _ hinv hbytes z hz hzne 0

/-- C1 (witness): the round trip at a concrete payload, configuration and
contract-satisfying collaborator, exercising the padding branch. -/
theorem sync_payload_roundtrip_witness :
    decodeSyncPayload oneTailDecompress
      (encodePayload oneTailCompress ⟨64, true⟩ examplePayload)
      = some examplePayload :=
  sync_payload_roundtrip oneTailCompress oneTailDecompress ⟨64, true⟩
    examplePayload examplePayload_valid (by decide) (by decide) (by decide)
    (by decide)

/-- C7: with padding configured, the byte string the decoder's base64 stage
recovers from `encode(p, n)` has length exactly `max n (compressed
length)`: never shorter than `n`, and left unpadded when the compressed
stream is at least `n` bytes long. -/
theorem base64_stage_length_max (compress : List Nat → List Nat)
    (cfg : CompressionConfig) (p : SyncPayload)
    (hpad : cfg.padIfSmaller = true)
    (hbytes : ∀ b ∈ compress (utf8Encode (serObject p)), b < 256) :
    (decodeBase64Stage (encodePayload compress cfg p)).map List.length
      = some (max cfg.minSize (compress (utf8Encode (serObject p))).length) := by
  have hb2 : ∀ k, ∀ b ∈ compress (utf8Encode (serObject p)) ++ List.replicate k 0,
      b < 256 := by
    intro k b hbm
    rcases List.mem_append.mp hbm with h | h
    · exact hbytes b h
    · rcases List.mem_replicate.mp h with ⟨_, rfl⟩; omega
  simp only [encodePayload, hpad, Bool.true_and]
  split
  · next hlt =>
      have hlt' := of_decide_eq_true hlt
      rw [decodeBase64Stage_encoded _ (hb2 _)]
      simp only [Option.map_some', List.length_append, List.length_replicate]
      congr 1
      omega
  · next hge =>
      have hge' : ¬ (compress (utf8Encode (serObject p))).length < cfg.minSize :=
        fun h => hge (decide_eq_true h)
      rw [decodeBase64Stage_encoded _ hbytes]
      simp only [Option.map_some']
      congr 1
      omega

/-- C7 (witness): the padded length at a concrete payload whose compressed
stream is shorter than the configured minimum. -/
theorem base64_stage_length_max_witness :
    (decodeBase64Stage (encodePayload oneTailCompress ⟨64, true⟩ examplePayload)).map
        List.length
      = some (max 64 (oneTailCompress (utf8Encode (serObject examplePayload))).length) :=
  base64_stage_length_max oneTailCompress ⟨64, true⟩ examplePayload rfl (by decide)

/-! ## Orchestration lemmas -/

/-- `create_sync_record` succeeds on mapped record types, appending exactly
one row whose payload is built from the record and operation and whose uuid
is the fresh draw. -/
theorem createSyncRecord_ok (record : TxRecord) (operation : SyncOp) (db : Db)
    (hk : record.kind ≠ ResourceKind.transfer) :
    createSyncRecord record operation db
      = Except.ok (db.syncRows.length + 1,
          { db with
            syncRows := db.syncRows ++ [⟨UPDATE_TYPE_ANY, db.rngSeed, (record, operation)⟩],
            rngSeed := rngNext db.rngSeed }) := by
  unfold createSyncRecord
  cases hkind : record.kind with
  | transfer => exact absurd hkind hk
  | expense => rfl
  | income => rfl

/-- The sync rows after a successful `create_sync_record`. -/
theorem createSyncRecord_rows (record : TxRecord) (operation : SyncOp)
    (db : Db) (k : Nat) (d : Db)
    (h : createSyncRecord record operation db = Except.ok (k, d)) :
    d.syncRows = db.syncRows ++ [⟨UPDATE_TYPE_ANY, db.rngSeed, (record, operation)⟩] := by
  unfold createSyncRecord at h
  cases hg : getResourceType record.kind with
  | error e => simp [hg] at h
  | ok r =>
      simp [hg] at h
      rw [← h.2]

/-- `create_updates_for_changes` succeeds on mapped record types. -/
theorem createUpdatesForChanges_ok (record : TxRecord) (operation : SyncOp)
    (hk : record.kind ≠ ResourceKind.transfer) :
    ∀ (fs : List String) (db : Db), ∃ ks db2,
      createUpdatesForChanges record operation fs db = Except.ok (ks, db2) := by
  intro fs
  induction fs with
  | nil => exact fun db => ⟨[], db, rfl⟩
  | cons f fs ih =>
      intro db
      obtain ⟨ks, db2, h⟩ := ih { db with
        syncRows := db.syncRows ++ [⟨UPDATE_TYPE_ANY, db.rngSeed, (record, operation)⟩],
        rngSeed := rngNext db.rngSeed }
      refine ⟨(db.syncRows.length + 1) :: ks, db2, ?_⟩
      unfold createUpdatesForChanges
      simp only [createSyncRecord_ok record operation db hk, h]

/-- The consolidated sync phase succeeds when every collected record has a
mapped resource type. -/
theorem emitSyncActions_ok :
    ∀ (acts : List (TxRecord × SyncOp × Option (List String))) (db : Db),
      (∀ a ∈ acts, a.1.kind ≠ ResourceKind.transfer) →
      ∃ db2, emitSyncActions acts db = Except.ok db2 := by
  intro acts
  induction acts with
  | nil => exact fun db _ => ⟨db, rfl⟩
  | cons a rest ih =>
      intro db hk
      obtain ⟨record, operation, changed⟩ := a
      have hk1 : record.kind ≠ ResourceKind.transfer :=
        hk (record, operation, changed) (by simp)
      have hkr : ∀ b ∈ rest, b.1.kind ≠ ResourceKind.transfer :=
        fun b hb => hk b (by simp [hb])
      by_cases hup : (operation.isUpdate && changedNonempty changed) = true
      · obtain ⟨ks, db1, h1⟩ :=
          createUpdatesForChanges_ok record operation hk1 (changed.getD []) db
        obtain ⟨db2, h2⟩ := ih db1 hkr
        refine ⟨db2, ?_⟩
        unfold emitSyncActions
        rw [if_pos hup]
        simp only [h1, h2]
      · obtain ⟨db2, h2⟩ := ih { db with
          syncRows := db.syncRows ++ [⟨UPDATE_TYPE_ANY, db.rngSeed, (record, operation)⟩],
          rngSeed := rngNext db.rngSeed } hkr
        refine ⟨db2, ?_⟩
        unfold emitSyncActions
        rw [if_neg hup]
        simp only [createSyncRecord_ok record operation db hk1, h2]

/-- The rolled-back client keeps the attribute mutations of the action. -/
theorem runTransaction_enableSync {α : Type}
    (action : Client → Except String α × Client) (c : Client) :
    ((runTransaction action c).2).enableSync = ((action c).2).enableSync := by
  unfold runTransaction
  split
  · next a c1 h => rw [h]
  · next e c1 h => rw [h]

/-- The `batch()` action restores `enable_sync` on every exit path. -/
theorem batchAction_enableSync (getRate : String → Rat) (continueOnError : Bool)
    (operations : List BatchOp) (c : Client) :
    ((batchAction getRate continueOnError operations c).2).enableSync = c.enableSync := by
  simp only [batchAction]
  split
  · rfl
  · split
    · split
      · rfl
      · rfl
    · rfl

/-! ## Theorems: sync fan-out and batch claims -/

/-- C2: per-field sync fan-out for single-record updates. An expense update
supplying exactly two fields (`amount`, `notes`) with sync enabled persists
exactly three `SyncUpdate` rows, not two: `_normalize_forex_inputs` mirrors
`currency_amount := amount`, and `_collect_changed_fields` counts the
mirrored field. Each row's payload is built from the full final record
state. For transfers the claimed behaviour is unreachable: `_resource_map`
has no `TransferRecord` entry, so the sync manager raises `TypeError` and
the whole update — the repository write included — rolls back; the
repository and batch layers (and the repo's transfer tests) clearly intend
transfers to sync, so the missing map entry is a defect in the code. -/
theorem update_sync_fanout_and_transfer_update_failure :
    (executeUpdateTransaction (fun _ => 1) ResourceKind.expense 1 (some 250)
        (some "x") none none none demoClient).1
      = Except.ok ⟨ResourceKind.expense, 1, 250, "x"⟩
    ∧ ((executeUpdateTransaction (fun _ => 1) ResourceKind.expense 1 (some 250)
        (some "x") none none none demoClient).2).db.syncRows
      = [⟨UPDATE_TYPE_ANY, 7, (⟨ResourceKind.expense, 1, 250, "x"⟩, SyncOp.update ResourceKind.expense)⟩,
         ⟨UPDATE_TYPE_ANY, 8, (⟨ResourceKind.expense, 1, 250, "x"⟩, SyncOp.update ResourceKind.expense)⟩,
         ⟨UPDATE_TYPE_ANY, 9, (⟨ResourceKind.expense, 1, 250, "x"⟩, SyncOp.update ResourceKind.expense)⟩]
    ∧ (executeUpdateTransaction (fun _ => 1) ResourceKind.transfer 3 (some 250)
        (some "x") none none none demoClient).1
      = Except.error "Unsupported record type: TransferRecord"
    ∧ (executeUpdateTransaction (fun _ => 1) ResourceKind.transfer 3 (some 250)
        (some "x") none none none demoClient).2
      = demoClient := by
  exact ⟨rfl, rfl, rfl, rfl⟩

/-- C3 (counterexample): a batch of three operations whose second fails and
whose others succeed, run with `continue_on_error = true` and sync enabled.
Because the third (successful) operation is a transfer add, the
consolidated sync phase raises `TypeError` after the loop, the error
escapes, and the whole transaction rolls back — instead of committing with
the failure collected, as claimed. -/
theorem batch_transfer_sync_rolls_back_successes :
    (batch (fun _ => 1) true transferBatchOps demoClient).1
      = Except.error "Unsupported record type: TransferRecord"
    ∧ (batch (fun _ => 1) true transferBatchOps demoClient).2 = demoClient := by
  exact ⟨rfl, rfl⟩

/-- C3 (amended): for a batch of three operations whose second fails and
whose first and third succeed, with sync enabled and every successful
record of a mapped resource type (expense/income): with
`continue_on_error = true` the batch returns the successful records in
order, the failed list holds exactly the second operation with its error,
and the transaction commits (store from the successful operations plus the
emitted sync rows); with `continue_on_error = false` the error propagates
and nothing is committed. -/
theorem batch_three_ops_semantics (getRate : String → Rat) (c : Client)
    (op1 op2 op3 : BatchOp)
    (r1 r3 : TxRecord) (s1 s3 : SyncOp) (ch1 ch3 : Option (List String))
    (db1 db3 : Db) (e2 : String)
    (h1 : applyBatchOp getRate op1 c.db = Except.ok (r1, s1, ch1, db1))
    (h2 : applyBatchOp getRate op2 db1 = Except.error e2)
    (h3 : applyBatchOp getRate op3 db1 = Except.ok (r3, s3, ch3, db3))
    (hsync : c.enableSync = true)
    (hk1 : r1.kind ≠ ResourceKind.transfer)
    (hk3 : r3.kind ≠ ResourceKind.transfer) :
    (∃ dbF, emitSyncActions [(r1, s1, ch1), (r3, s3, ch3)] db3 = Except.ok dbF
      ∧ batch getRate true [op1, op2, op3] c
          = (Except.ok ⟨[r1, r3], [(op2, e2)]⟩, { c with db := dbF }))
    ∧ batch getRate false [op1, op2, op3] c = (Except.error e2, c) := by
  obtain ⟨dbF, hemit⟩ := emitSyncActions_ok [(r1, s1, ch1), (r3, s3, ch3)] db3 (by
    intro a ha
    simp only [List.mem_cons, List.not_mem_nil, or_false] at ha
    rcases ha with rfl | rfl
    · exact hk1
    · exact hk3)
  have hloopT : batchLoop getRate true [op1, op2, op3] c.db
      = Except.ok ([r1, r3], [(op2, e2)], [(r1, s1, ch1), (r3, s3, ch3)], db3) := by
    simp [batchLoop, h1, h2, h3]
  have hloopF : batchLoop getRate false [op1, op2, op3] c.db = Except.error e2 := by
    simp [batchLoop, h1, h2]
  constructor
  · refine ⟨dbF, hemit, ?_⟩
    simp only [batch, runTransaction, batchAction, hloopT, hsync, hemit,
      eq_self_iff_true, if_true]
  · simp only [batch, runTransaction, batchAction, hloopF]

/-- C3 (witness): the amended batch semantics at a concrete client and a
concrete three-operation batch (expense add; failing income update; income
update whose changed fields are the amount and the normalizer-mirrored
foreign amount), both with and without `continue_on_error`. -/
theorem batch_three_ops_semantics_witness :
    (∃ dbF, emitSyncActions
        [(⟨ResourceKind.expense, 10, 20, "a"⟩, SyncOp.add ResourceKind.expense, none),
         (⟨ResourceKind.income, 2, 45, "salary"⟩, SyncOp.update ResourceKind.income,
           some ["amount", "currency_amount"])]
        ⟨[⟨ResourceKind.expense, 1, 100, "old"⟩,
          ⟨ResourceKind.income, 2, 45, "salary"⟩,
          ⟨ResourceKind.transfer, 3, 50, "move"⟩,
          ⟨ResourceKind.expense, 10, 20, "a"⟩], [], 7⟩ = Except.ok dbF
      ∧ batch (fun _ => 1) true mappedBatchOps demoClient
          = (Except.ok ⟨[⟨ResourceKind.expense, 10, 20, "a"⟩,
                         ⟨ResourceKind.income, 2, 45, "salary"⟩],
                        [(⟨ResourceKind.income, BatchAction.update, 99, some 1,
                           none, none, none, none⟩,
                          "Income not found")]⟩,
             { demoClient with db := dbF }))
    ∧ batch (fun _ => 1) false mappedBatchOps demoClient
        = (Except.error "Income not found", demoClient) :=
  batch_three_ops_semantics (fun _ => 1) demoClient
    ⟨ResourceKind.expense, BatchAction.add, 10, some 20, some "a", none, none, none⟩
    ⟨ResourceKind.income, BatchAction.update, 99, some 1, none, none, none, none⟩
    ⟨ResourceKind.income, BatchAction.update, 2, some 45, none, none, none, none⟩
    ⟨ResourceKind.expense, 10, 20, "a"⟩ ⟨ResourceKind.income, 2, 45, "salary"⟩
    (SyncOp.add ResourceKind.expense) (SyncOp.update ResourceKind.income)
    none (some ["amount", "currency_amount"])
    ⟨[⟨ResourceKind.expense, 1, 100, "old"⟩,
      ⟨ResourceKind.income, 2, 40, "salary"⟩,
      ⟨ResourceKind.transfer, 3, 50, "move"⟩,
      ⟨ResourceKind.expense, 10, 20, "a"⟩], [], 7⟩
    ⟨[⟨ResourceKind.expense, 1, 100, "old"⟩,
      ⟨ResourceKind.income, 2, 45, "salary"⟩,
      ⟨ResourceKind.transfer, 3, 50, "move"⟩,
      ⟨ResourceKind.expense, 10, 20, "a"⟩], [], 7⟩
    "Income not found" rfl rfl rfl rfl (by decide) (by decide)

/-- C9: encoding is deterministic — `_encode_payload` is a pure function of
the payload map and the compression configuration, so equal maps (same
keys, same values, same insertion order) encode byte-identically; and the
only per-invocation nondeterminism in `create_sync_record`, the `uuid4()`
draw, goes into the row's uuid column, never the payload: invocations on
any two store states yield rows with identical payloads. -/
theorem encode_deterministic (compress : List Nat → List Nat)
    (cfg : CompressionConfig) (p q : SyncPayload) (hpq : p = q)
    (record : TxRecord) (operation : SyncOp) (db1 db2 : Db)
    (k1 : Nat) (d1 : Db) (k2 : Nat) (d2 : Db)
    (h1 : createSyncRecord record operation db1 = Except.ok (k1, d1))
    (h2 : createSyncRecord record operation db2 = Except.ok (k2, d2)) :
    encodePayload compress cfg p = encodePayload compress cfg q
    ∧ (d1.syncRows.getLast?).map SyncRow.payload
        = (d2.syncRows.getLast?).map SyncRow.payload := by
  subst hpq
  refine ⟨rfl, ?_⟩
  rw [createSyncRecord_rows record operation db1 k1 d1 h1,
    createSyncRecord_rows record operation db2 k2 d2 h2,
    List.getLast?_concat, List.getLast?_concat]
  rfl

/-- C9 (witness): the same record synced from two different store states
(different uuid seeds, different row histories) yields rows with identical
payloads, and a concrete payload encodes identically across invocations. -/
theorem encode_deterministic_witness :
    encodePayload (fun bs => bs) ⟨4, true⟩ examplePayload
        = encodePayload (fun bs => bs) ⟨4, true⟩ examplePayload
    ∧ ((Db.mk [] [⟨UPDATE_TYPE_ANY, 0,
          (⟨ResourceKind.expense, 1, 5, "n"⟩, SyncOp.add ResourceKind.expense)⟩] 1).syncRows.getLast?).map
          SyncRow.payload
      = ((Db.mk [] [⟨UPDATE_TYPE_ANY, 99,
          (⟨ResourceKind.expense, 1, 5, "n"⟩, SyncOp.add ResourceKind.expense)⟩] 100).syncRows.getLast?).map
          SyncRow.payload :=
  encode_deterministic (fun bs => bs) ⟨4, true⟩ examplePayload examplePayload rfl
    ⟨ResourceKind.expense, 1, 5, "n"⟩ (SyncOp.add ResourceKind.expense)
    ⟨[], [], 0⟩ ⟨[], [], 99⟩ 1
    ⟨[], [⟨UPDATE_TYPE_ANY, 0,
      (⟨ResourceKind.expense, 1, 5, "n"⟩, SyncOp.add ResourceKind.expense)⟩], 1⟩ 1
    ⟨[], [⟨UPDATE_TYPE_ANY, 99,
      (⟨ResourceKind.expense, 1, 5, "n"⟩, SyncOp.add ResourceKind.expense)⟩], 100⟩
    rfl rfl

/-- C10: `enable_sync` after any `batch()` call and any batch-create call
equals its value before the call, on normal return and on an exception
alike: the flag is cleared for the per-item loop and restored by the
`finally` on every exit path, and the transaction rollback does not touch
client attributes. -/
theorem enable_sync_restored (getRate : String → Rat) (continueOnError : Bool)
    (operations : List BatchOp) (c : Client)
    (insertFunc : TxRecord → Db → Except String (TxRecord × Db))
    (items : List TxRecord) (operation : SyncOp) (cont2 : Bool) (c2 : Client) :
    ((batch getRate continueOnError operations c).2).enableSync = c.enableSync
    ∧ ((executeBatchCreateTransaction insertFunc items operation cont2 c2).2).enableSync
        = c2.enableSync := by
  constructor
  · unfold batch
    rw [runTransaction_enableSync]
    exact batchAction_enableSync getRate continueOnError operations c
  · unfold executeBatchCreateTransaction
    rw [runTransaction_enableSync]
    dsimp only
    split
    · rfl
    · split
      · split
        · rfl
        · rfl
      · rfl

end HomeBudget
